import Mathlib

/-!
Verification development for the OSCPack Bates-numbering pipeline (core.py).

The Python source is shallowly embedded: pure computations become Lean
functions on `Nat`/`Int`/`ℚ`/`String`, the filesystem becomes an explicit
list of file entries threaded through each phase, Python exceptions become
an explicit error type (`SystemExit`, which is a `BaseException` and is NOT
caught by `except Exception:`, is distinguished from ordinary `Exception`s),
and the external collaborators (pypdf, PIL, docx2pdf, reportlab) become
oracle parameters.  Strings are treated at ASCII granularity, matching the
inputs the pipeline manipulates.
-/

namespace OSCPack

/-! ### Character classes (as used by `re` on the pipeline's ASCII inputs)

`[A-Za-z0-9]`, `\s`, `\d` from BATES_NAME_PATTERN; Python's `\s` is
`[ \t\n\r\f\v]` on ASCII text and `.` matches anything except `'\n'`. -/
def isAlnumChar (c : Char) : Bool := c.isAlpha || c.isDigit

def isSpaceChar (c : Char) : Bool :=
  c = ' ' || c = '\t' || c = '\n' || c = '\x0d' || c = '\x0c' || c = '\x0b'

def isDigitChar (c : Char) : Bool := c.isDigit

/-! ### Decimal rendering and parsing (Python `str(n)`, `int(s)`, zero padding) -/
/-- Python `int(s)` on a nonempty all-digit string: left fold of decimal digits. -/
def digitsToNat (cs : List Char) : Nat :=
  cs.foldl (fun acc c => acc * 10 + (c.toNat - 48)) 0

def digitChar (d : Nat) : Char := Char.ofNat (48 + d)

/-- Big-endian decimal digits of `n`, prepended to `acc`; the fuel argument
(any bound on the digit count, e.g. `n` itself) keeps the recursion
structural so that concrete instances reduce inside the kernel. -/
def natDecimalAux : Nat → Nat → List Char → List Char
  | 0, _, acc => acc
  | fuel + 1, n, acc =>
    if n = 0 then acc else natDecimalAux fuel (n / 10) (digitChar (n % 10) :: acc)

/-- Decimal rendering of a natural number (Python `str(n)` for `n ≥ 0`). -/
def natDecimal (n : Nat) : List Char :=
  if n = 0 then ['0'] else natDecimalAux n n []

/-- Python `f"{n:0{width}d}"`: zero-pad the decimal form of `n` to `width`. -/
def padNum (width n : Nat) : List Char :=
  let ds := natDecimal n
  List.replicate (width - ds.length) '0' ++ ds

/-! ### The canonical filename grammar, BATES_NAME_PATTERN (core.py:104)

```
^(?P<prefix>[A-Za-z0-9]+)\s+(?P<start>\d+)(?:-(?P<end>\d+))?(?:\s*-\s*.+)?$
```

The matcher below is a direct specialisation of the regex to this pattern.
For the leading `[A-Za-z0-9]+`, `\s+`, `\d+` runs, greedy matching without
backtracking is complete: each run is followed by a literal from a disjoint
character class, so a shortened run always leaves a character the next
regex element rejects.  The optional `(?:-(?P<end>\d+))?` group needs one
backtracking alternative (take it whole, or skip it), and inside the
trailing `(?:\s*-\s*.+)?` the second `\s*` must be able to give characters
back to `.+`; both are modelled explicitly. -/
/-- All suffixes of a list, longest first (used for `\s*` backtracking). -/
def listSuffixes : List Char → List (List Char)
  | [] => [[]]
  | c :: tl => (c :: tl) :: listSuffixes tl

def noNewline (cs : List Char) : Bool := cs.all (fun c => c ≠ '\n')

/-- Anchor `$` with no preceding consumption: end of string, or a lone final `'\n'`. -/
def dollarOnly (cs : List Char) : Bool := cs = [] || cs = ['\n']

/-- Does `.+$` match the remainder `cs`?  `.` excludes `'\n'`; `$` accepts
end-of-string or the position just before a final `'\n'`. -/
def dotPlusDollar (cs : List Char) : Bool :=
  let core := if cs.getLast? = some '\n' then cs.dropLast else cs
  !core.isEmpty && noNewline core

/-- Match `\s*.+$` (the part of the optional suffix group after its `-`),
with the `\s*` able to yield characters back to `.+`. -/
def tailAfterDash (r : List Char) : Bool :=
  let ws := r.takeWhile isSpaceChar
  let body := r.dropWhile isSpaceChar
  (listSuffixes ws).any (fun s => dotPlusDollar (s ++ body))

/-- Match `(?:\s*-\s*.+)?$` against the remainder. -/
def tailMatch (r : List Char) : Bool :=
  (match r.dropWhile isSpaceChar with
   | '-' :: r2 => tailAfterDash r2
   | _ => false)
  || dollarOnly r

/-- The three capture groups of BATES_NAME_PATTERN, already through
`int(...)` for the numeric ones (`end` is a Lean keyword; `endNum`). -/
structure BatesGroups where
  pfx : String
  start : Nat
  endNum : Option Nat
deriving DecidableEq, Repr

/-- Embedding of `BATES_NAME_PATTERN.match(stem)` with `int()` applied to the numeric
groups, `None` for no match. -/
def batesNameMatch (stem : String) : Option BatesGroups :=
  let cs := stem.data
  let p := cs.takeWhile isAlnumChar
  let r0 := cs.dropWhile isAlnumChar
  if p.isEmpty then none else
  let sp := r0.takeWhile isSpaceChar
  let r1 := r0.dropWhile isSpaceChar
  if sp.isEmpty then none else
  let ds := r1.takeWhile isDigitChar
  let r2 := r1.dropWhile isDigitChar
  if ds.isEmpty then none else
  match r2 with
  | '-' :: r3 =>
    let es := r3.takeWhile isDigitChar
    let r4 := r3.dropWhile isDigitChar
    if !es.isEmpty && tailMatch r4 then
      some ⟨String.mk p, digitsToNat ds, some (digitsToNat es)⟩
    else if tailMatch r2 then
      some ⟨String.mk p, digitsToNat ds, none⟩
    else none
  | _ =>
    if tailMatch r2 then some ⟨String.mk p, digitsToNat ds, none⟩ else none

/-! ### Label formatting (build_renames, core.py:521-524) -/
/-- The base label: `"{PREFIX} {start:0{DIGITS}d}"`, with `"-{end:0{DIGITS}d}"`
appended when a range end is present. -/
def formatBatesBase (pfxS : String) (digits s : Nat) (e : Option Nat) : String :=
  match e with
  | none => pfxS ++ " " ++ String.mk (padNum digits s)
  | some e => pfxS ++ " " ++ String.mk (padNum digits s) ++ "-" ++ String.mk (padNum digits e)

/-- The stem of a renamed file: the base label alone, or with the original
stem appended as `"{base} - {stem}"` (make_bates_filename, minus the
extension which `Path.stem` strips back off before re-parsing). -/
def formatBatesStem (pfxS : String) (digits s : Nat) (e : Option Nat)
    (origStem : Option String) : String :=
  match origStem with
  | none => formatBatesBase pfxS digits s e
  | some t => formatBatesBase pfxS digits s e ++ " - " ++ t

/-- The digit-fold step of `digitsToNat`. -/
def digitStep (acc : Nat) (c : Char) : Nat := acc * 10 + (c.toNat - 48)

/-! ### C1: Bates-range allocation (build_renames, core.py:514-527)

`build_renames` walks the item list with `counter`, assigning
`start = counter`, `end = counter + pages - 1`, `counter = end + 1`.
`allocRanges` is that counter loop, returning the `(start, end)` pairs in
order together with the final counter value. -/
def allocRanges : Nat → List Nat → List (Nat × Nat) × Nat
  | counter, [] => ([], counter)
  | counter, p :: ps =>
    let s := counter
    let e := counter + p - 1
    let rest := allocRanges (e + 1) ps
    ((s, e) :: rest.1, rest.2)

/-! ### Letter-reformat and stamping geometry

Rational models of the (float) page arithmetic in
`choose_letter_size`/`reformat_pdf_to_letter_in_place` (core.py:590-613) and
`apply_bates_to_pdf` (core.py:719-729); all quantities involved are exact in
ℚ. `inch = 72` points (reportlab). -/
def inchPts : ℚ := 72

def BATES_FOOTER_BAND : ℚ := 0.75 * inchPts

def BATES_MARGIN_BOTTOM : ℚ := 0.5 * inchPts

def LETTER_PORTRAIT : ℚ × ℚ := (612, 792)

def LETTER_LANDSCAPE : ℚ × ℚ := (792, 612)

/-- choose_letter_size (core.py:590): landscape iff `width ≥ height`. -/
def choose_letter_size (origW origH : ℚ) : ℚ × ℚ :=
  if origW ≥ origH then LETTER_LANDSCAPE else LETTER_PORTRAIT

structure ReformatGeom where
  targetW : ℚ
  targetH : ℚ
  scale : ℚ
  tx : ℚ
  ty : ℚ
deriving DecidableEq, Repr

/-- Per-page geometry of reformat_pdf_to_letter_in_place (core.py:600-609). -/
def reformat_page_geom (w h : ℚ) : ReformatGeom :=
  let t := choose_letter_size w h
  let scale := min (t.1 / w) (t.2 / h)
  ⟨t.1, t.2, scale, (t.1 - w * scale) / 2, (t.2 - h * scale) / 2⟩

/-- The reserved footer band during stamping (core.py:722):
`min(BATES_FOOTER_BAND, ph / 3)` — capped at a third of the page height. -/
def stamp_reserved (ph : ℚ) : ℚ := min BATES_FOOTER_BAND (ph / 3)

/-- Content scale during stamping (core.py:723). -/
def stamp_scale (ph : ℚ) : ℚ := min ((ph - stamp_reserved ph) / ph) 1

/-- Vertical offset of the rescaled content (core.py:729). -/
def stamp_ty (ph : ℚ) : ℚ :=
  stamp_reserved ph + (ph - stamp_reserved ph - ph * stamp_scale ph) / 2

/-! ### File-type groups and classification (core.py:78-87, 148-161, 429-480)

Python compares `path.suffix.lower()` against the extension sets;
`lowerChar`/`lowerStr` model `str.lower()` on ASCII (A-Z ↦ a-z). -/
def PDF_EXT : String := ".pdf"

def WORD_EXTS : List String := [".docx"]

def EXCEL_EXTS : List String := [".xls", ".xlsx", ".xlsm", ".xlsb"]

def VIDEO_EXTS : List String := [".mp4", ".mov", ".m4v", ".avi", ".mkv", ".wmv", ".flv"]

def IMAGE_EXTS : List String := [".jpg", ".jpeg", ".png", ".tif", ".tiff", ".bmp", ".gif"]

def HTML_EXTS : List String := [".html", ".htm"]

def TEXT_EXTS : List String := [".txt"]

def BLOCKED_OTHER_EXTS : List String := [".doc", ".eml", ".msg"]

def lowerChar (c : Char) : Char :=
  if 'A' ≤ c ∧ c ≤ 'Z' then Char.ofNat (c.toNat + 32) else c

def lowerStr (s : String) : String := ⟨s.data.map lowerChar⟩

/-- The classification branch taken by plan_items for a given file suffix
(the `if suffix == PDF_EXT / elif in WORD_EXTS / ...` chain,
core.py:446-478). -/
inductive SuffixClass
  | pdfDoc
  | wordDoc
  | excelDoc
  | videoDoc
  | unhandled
deriving DecidableEq, Repr

def classifySuffix (sfx : String) : SuffixClass :=
  let s := lowerStr sfx
  if s = PDF_EXT then .pdfDoc
  else if s ∈ WORD_EXTS then .wordDoc
  else if s ∈ EXCEL_EXTS then .excelDoc
  else if s ∈ VIDEO_EXTS then .videoDoc
  else .unhandled

/-- Test `path.suffix.lower() in BLOCKED_OTHER_EXTS` (find_blocking_files). -/
def isBlockedExt (sfx : String) : Bool := decide (lowerStr sfx ∈ BLOCKED_OTHER_EXTS)

/-! ### Filesystem model

A file is a directory path (list of components, rooted at the filesystem
root so that `Path.parts` is `dir ++ [name]`), a stem, a suffix and an
opaque content token.  The filesystem is the list of files in traversal
order; the natural-sort order itself is not covered by any claim, so the
stored order stands in for it, while the traversal's *skip rules*
(core.py:129-145) are modelled exactly. -/
abbrev PathC := List String

structure FileEntry where
  dir : PathC
  stem : String
  sfx : String
  content : Nat
deriving DecidableEq, Repr

def FileEntry.fileName (f : FileEntry) : String := f.stem ++ f.sfx

def FileEntry.parts (f : FileEntry) : List String := f.dir ++ [f.fileName]

abbrev FS := List FileEntry

def BACKUP_FOLDER_NAME : String := "_bates_backups"

def isJunkName (n : String) : Bool := n = "Thumbs.db" || n = "desktop.ini"

/-- Python `name.startswith(c)` for a single character. -/
def strHeadIs (s : String) (c : Char) : Bool :=
  match s.data with
  | [] => false
  | a :: _ => a = c

def isHiddenName (n : String) : Bool := strHeadIs n '.' || strHeadIs n '~'

def pathStr (p : PathC) : String := String.intercalate "/" p

/-- iter_finder_order_files: a file under `rootDir` is yielded iff the
backup-folder name occurs nowhere in its parts and no component below the
root is hidden (leading `.`/`~`) or OS junk. -/
def iter_finder_order_files (rootDir : PathC) (fs : FS) : List FileEntry :=
  fs.filter (fun f =>
    decide (f.dir.take rootDir.length = rootDir) &&
    !(decide (BACKUP_FOLDER_NAME ∈ f.parts)) &&
    ((f.dir.drop rootDir.length ++ [f.fileName]).all
      (fun n => !(isHiddenName n || isJunkName n))))

/-- find_blocking_files (core.py:148-161). -/
def find_blocking_files (rootDir : PathC) (fs : FS) : List FileEntry :=
  (iter_finder_order_files rootDir fs).filter (fun f => isBlockedExt f.sfx)

/-! ### External collaborators as oracles

pypdf / PIL / docx2pdf / reportlab effects: each returns the content token of
the produced file, or `none` for the failure its Python `try/except` guards
against.  `pdfRead` is the page count `PdfReader` reports (`none` = raises). -/
structure Oracles where
  pdfRead : FileEntry → Option Nat
  imageConv : FileEntry → Option Nat
  htmlConv : FileEntry → Option Nat
  txtConv : FileEntry → Option Nat
  docxConv : FileEntry → Option Nat
  reformatContent : FileEntry → Option Nat
  stampContent : FileEntry → Option Nat

/-- get_pdf_page_count (core.py:164-170): 0 on a read failure. -/
def get_pdf_page_count (o : Oracles) (f : FileEntry) : Nat := (o.pdfRead f).getD 0

/-- Python exceptions: `SystemExit` (raised by `raise SystemExit(...)`,
derives from `BaseException`) versus ordinary `Exception` subclasses.
`except Exception:` catches only the latter. -/
inductive PyErr
  | exit (msg : String)
  | exc (msg : String)
deriving DecidableEq, Repr

/-! ### Filesystem primitives -/
def fsExists (fs : FS) (dir : PathC) (name : String) : Bool :=
  fs.any (fun f => decide (f.dir = dir) && decide (f.fileName = name))

def fsLookup (fs : FS) (dir : PathC) (name : String) : Option FileEntry :=
  fs.find? (fun f => decide (f.dir = dir) && decide (f.fileName = name))

/-- Create or overwrite the file at `g`'s path. -/
def fsWrite (fs : FS) (g : FileEntry) : FS :=
  if fsExists fs g.dir g.fileName then
    fs.map (fun f => if f.dir = g.dir ∧ f.fileName = g.fileName then g else f)
  else fs ++ [g]

/-- Python `unlink(missing_ok=True)`. -/
def fsDelete (fs : FS) (dir : PathC) (name : String) : FS :=
  fs.filter (fun f => !(decide (f.dir = dir) && decide (f.fileName = name)))

/-- The `while pdf_path.exists(): pdf_path = ...{stem}{tag}{counter}.pdf`
fresh-name loop of the conversion functions (e.g. core.py:202-206); returns
the stem of the chosen name.  Searching `fs.length + 1` candidate counters
always finds a free one (there are more candidates than files); the final
fallback arm is unreachable. -/
def freshPdfStem (fs : FS) (dir : PathC) (stem tag : String) : String :=
  if !fsExists fs dir (stem ++ ".pdf") then stem
  else
    match (List.range (fs.length + 1)).find?
        (fun k => !fsExists fs dir
          (stem ++ tag ++ String.mk (natDecimal (k + 1)) ++ ".pdf")) with
    | some k => stem ++ tag ++ String.mk (natDecimal (k + 1))
    | none => stem ++ tag ++ String.mk (natDecimal (fs.length + 2))

/-! ### Conversion passes (core.py:184-424)

Each pass iterates over a snapshot of the traversal, converting matching
files.  Per the source: the image and DOCX passes record a preview pair in
dry-run mode, while the HTML and TXT passes' converters return `None` in
dry-run before anything is recorded; an HTML conversion failure is swallowed
inside convert_html_to_pdf (no error entry), while image/TXT/DOCX failures
append to the error list. -/
def convert_images_loop (o : Oracles) (dryRun deleteOriginal : Bool) :
    List FileEntry → FS → List (String × String) → List String →
      FS × List (String × String) × List String
  | [], fs, convs, errs => (fs, convs, errs)
  | f :: rest, fs, convs, errs =>
    if lowerStr f.sfx ∈ IMAGE_EXTS then
      let newStem := freshPdfStem fs f.dir f.stem "_"
      let pair := (pathStr f.parts, pathStr (f.dir ++ [newStem ++ ".pdf"]))
      if dryRun then
        convert_images_loop o dryRun deleteOriginal rest fs (convs ++ [pair]) errs
      else
        match o.imageConv f with
        | some c =>
          let fs1 := fsWrite fs ⟨f.dir, newStem, ".pdf", c⟩
          let fs2 := if deleteOriginal then fsDelete fs1 f.dir f.fileName else fs1
          convert_images_loop o dryRun deleteOriginal rest fs2 (convs ++ [pair]) errs
        | none =>
          convert_images_loop o dryRun deleteOriginal rest fs convs
            (errs ++ [pathStr f.parts ++ ": image conversion failed"])
    else convert_images_loop o dryRun deleteOriginal rest fs convs errs

def convert_images_in_tree (o : Oracles) (dryRun deleteOriginal : Bool)
    (rootDir : PathC) (fs : FS) : FS × List (String × String) × List String :=
  convert_images_loop o dryRun deleteOriginal (iter_finder_order_files rootDir fs) fs [] []

def convert_htmls_loop (o : Oracles) (dryRun deleteOriginal : Bool) :
    List FileEntry → FS → List (String × String) → List String →
      FS × List (String × String) × List String
  | [], fs, convs, errs => (fs, convs, errs)
  | f :: rest, fs, convs, errs =>
    if lowerStr f.sfx ∈ HTML_EXTS then
      let newStem := freshPdfStem fs f.dir f.stem "_html_"
      if dryRun then
        convert_htmls_loop o dryRun deleteOriginal rest fs convs errs
      else
        match o.htmlConv f with
        | some c =>
          let fs1 := fsWrite fs ⟨f.dir, newStem, ".pdf", c⟩
          let fs2 := if deleteOriginal then fsDelete fs1 f.dir f.fileName else fs1
          convert_htmls_loop o dryRun deleteOriginal rest fs2
            (convs ++ [(pathStr f.parts, pathStr (f.dir ++ [newStem ++ ".pdf"]))]) errs
        | none =>
          convert_htmls_loop o dryRun deleteOriginal rest fs convs errs
    else convert_htmls_loop o dryRun deleteOriginal rest fs convs errs

def convert_htmls_in_tree (o : Oracles) (dryRun deleteOriginal : Bool)
    (rootDir : PathC) (fs : FS) : FS × List (String × String) × List String :=
  convert_htmls_loop o dryRun deleteOriginal (iter_finder_order_files rootDir fs) fs [] []

def convert_txts_loop (o : Oracles) (dryRun deleteOriginal : Bool) :
    List FileEntry → FS → List (String × String) → List String →
      FS × List (String × String) × List String
  | [], fs, convs, errs => (fs, convs, errs)
  | f :: rest, fs, convs, errs =>
    if lowerStr f.sfx ∈ TEXT_EXTS then
      let newStem := freshPdfStem fs f.dir f.stem "_txt_"
      if dryRun then
        convert_txts_loop o dryRun deleteOriginal rest fs convs errs
      else
        match o.txtConv f with
        | some c =>
          let fs1 := fsWrite fs ⟨f.dir, newStem, ".pdf", c⟩
          let fs2 := if deleteOriginal then fsDelete fs1 f.dir f.fileName else fs1
          convert_txts_loop o dryRun deleteOriginal rest fs2
            (convs ++ [(pathStr f.parts, pathStr (f.dir ++ [newStem ++ ".pdf"]))]) errs
        | none =>
          convert_txts_loop o dryRun deleteOriginal rest fs convs
            (errs ++ [pathStr f.parts ++ ": TXT conversion failed"])
    else convert_txts_loop o dryRun deleteOriginal rest fs convs errs

def convert_txts_in_tree (o : Oracles) (dryRun deleteOriginal : Bool)
    (rootDir : PathC) (fs : FS) : FS × List (String × String) × List String :=
  convert_txts_loop o dryRun deleteOriginal (iter_finder_order_files rootDir fs) fs [] []

def convert_docx_loop (o : Oracles) (dryRun : Bool) :
    List FileEntry → FS → List (String × String) → List String →
      FS × List (String × String) × List String
  | [], fs, convs, errs => (fs, convs, errs)
  | f :: rest, fs, convs, errs =>
    if lowerStr f.sfx ∈ WORD_EXTS then
      let pair := (pathStr f.parts, pathStr (f.dir ++ [f.stem ++ ".pdf"]))
      if dryRun then
        convert_docx_loop o dryRun rest fs (convs ++ [pair]) errs
      else
        match o.docxConv f with
        | some c =>
          let fs1 := fsDelete (fsWrite fs ⟨f.dir, f.stem, ".pdf", c⟩) f.dir f.fileName
          convert_docx_loop o dryRun rest fs1 (convs ++ [pair]) errs
        | none =>
          convert_docx_loop o dryRun rest fs convs
            (errs ++ [pathStr f.parts ++ ": failed to convert DOCX to PDF"])
    else convert_docx_loop o dryRun rest fs convs errs

def convert_docx_in_tree (o : Oracles) (dryRun : Bool)
    (rootDir : PathC) (fs : FS) : FS × List (String × String) × List String :=
  convert_docx_loop o dryRun (iter_finder_order_files rootDir fs) fs [] []

/-! ### Planning (plan_items, core.py:429-489) -/
inductive ItemKind
  | pdf
  | wordNoPdf
  | excel
  | video
deriving DecidableEq, Repr

structure Item where
  kind : ItemKind
  pages : Nat
  dir : PathC
  stem : String
  sfx : String
deriving DecidableEq, Repr

def plan_items_loop (o : Oracles) (dryRun : Bool) :
    List FileEntry → FS → List Item → FS × List Item
  | [], fs, items => (fs, items)
  | f :: rest, fs, items =>
    if BACKUP_FOLDER_NAME ∈ f.parts then plan_items_loop o dryRun rest fs items
    else
      match classifySuffix f.sfx with
      | .pdfDoc =>
        let pages := get_pdf_page_count o f
        if pages > 0 then
          plan_items_loop o dryRun rest fs (items ++ [⟨.pdf, pages, f.dir, f.stem, f.sfx⟩])
        else plan_items_loop o dryRun rest fs items
      | .wordDoc =>
        if dryRun then
          -- convert_word_to_pdf prints and returns None in dry-run
          plan_items_loop o dryRun rest fs
            (items ++ [⟨.wordNoPdf, 1, f.dir, f.stem, f.sfx⟩])
        else
          match o.docxConv f with
          | some c =>
            let g : FileEntry := ⟨f.dir, f.stem, ".pdf", c⟩
            let fs1 := fsDelete (fsWrite fs g) f.dir f.fileName
            let pc := get_pdf_page_count o g
            let pages := if pc = 0 then 1 else pc  -- `or 1`
            plan_items_loop o dryRun rest fs1
              (items ++ [⟨.pdf, pages, f.dir, f.stem, ".pdf"⟩])
          | none =>
            plan_items_loop o dryRun rest fs
              (items ++ [⟨.wordNoPdf, 1, f.dir, f.stem, f.sfx⟩])
      | .excelDoc =>
        plan_items_loop o dryRun rest fs (items ++ [⟨.excel, 1, f.dir, f.stem, f.sfx⟩])
      | .videoDoc =>
        plan_items_loop o dryRun rest fs (items ++ [⟨.video, 1, f.dir, f.stem, f.sfx⟩])
      | .unhandled => plan_items_loop o dryRun rest fs items

def plan_items (o : Oracles) (dryRun : Bool) (rootDir : PathC) (fs : FS) :
    FS × List Item :=
  plan_items_loop o dryRun (iter_finder_order_files rootDir fs) fs []

/-- reorder_items_for_videos (core.py:483-489). -/
def reorder_items_for_videos (numberVideosAtEnd : Bool) (items : List Item) : List Item :=
  if !numberVideosAtEnd then items
  else
    items.filter (fun it => !(decide (it.kind = .video)))
      ++ items.filter (fun it => decide (it.kind = .video))

/-! ### Rename plan (make_bates_filename / build_renames, core.py:492-554) -/
structure Config where
  pfx : String
  digits : Nat
  startCounter : Nat
  dryRun : Bool
  backupBeforeBates : Bool
  keepOriginalName : Bool
  renameFolders : Bool
  keepFolderName : Bool
  numberVideosAtEnd : Bool
  combineFinal : Bool
  conversionOnly : Bool
deriving DecidableEq, Repr

def make_bates_filename (keepOriginalName : Bool) (base stem sfx : String) : String :=
  if keepOriginalName then base ++ " - " ++ stem ++ sfx else base ++ sfx

/-- The counter loop of build_renames: one `(source, destination)` operation
per item, destination in the same directory (`p.with_name(new_name)`). -/
def build_renames_ops (cfg : Config) : Nat → List Item → List (PathC × PathC)
  | _, [] => []
  | counter, it :: rest =>
    let s := counter
    let e := counter + it.pages - 1
    let base := if it.pages = 1 then formatBatesBase cfg.pfx cfg.digits s none
                else formatBatesBase cfg.pfx cfg.digits s (some e)
    let newName := make_bates_filename cfg.keepOriginalName base it.stem it.sfx
    (it.dir ++ [it.stem ++ it.sfx], it.dir ++ [newName]) :: build_renames_ops cfg (e + 1) rest

/-- build_renames: the operations, after the duplicate-destination check
(`len(dests) != len(set(dests))`, i.e. the destinations are not nodup,
raises SystemExit — core.py:550-552). -/
def build_renames (cfg : Config) (items : List Item) : Except PyErr (List (PathC × PathC)) :=
  let ops := build_renames_ops cfg cfg.startCounter items
  if (ops.map Prod.snd).Nodup then .ok ops
  else .error (.exit "Conflict: multiple files planned for same destination. Aborting.")

/-! ### Rename executor (apply_renames, core.py:559-585) -/
/-- pathlib's stem/suffix split of a file name: the suffix starts at the last
dot, provided that dot is neither leading nor trailing. -/
def splitExtName (name : String) : String × String :=
  let cs := name.data
  let k := (cs.reverse.takeWhile (fun c => c ≠ '.')).length
  if k < cs.length ∧ 1 ≤ k ∧ k + 2 ≤ cs.length then
    (⟨cs.take (cs.length - k - 1)⟩, ⟨cs.drop (cs.length - k - 1)⟩)
  else (name, "")

def relocateEntry (f : FileEntry) (dst : PathC) : FileEntry :=
  let name := dst.getLastD ""
  ⟨dst.dropLast, (splitExtName name).1, (splitExtName name).2, f.content⟩

/-- apply_renames: dry-run prints the plan and touches nothing; otherwise
phase 1 moves every existing source with `src ≠ dst` to a unique temp
sibling, phase 2 moves the temps to their final destinations. The two-phase
structure is preserved by first removing all sources, then writing all
destinations. -/
def apply_renames (dryRun : Bool) (ops : List (PathC × PathC)) (fs : FS) : FS :=
  if dryRun then fs
  else
    let staged := ops.foldl
      (fun (acc : FS × List (FileEntry × PathC)) op =>
        if op.1 = op.2 then acc
        else
          match fsLookup acc.1 op.1.dropLast (op.1.getLastD "") with
          | none => acc
          | some f => (fsDelete acc.1 f.dir f.fileName, acc.2 ++ [(f, op.2)]))
      (fs, [])
    staged.2.foldl (fun fsAcc fd => fsWrite fsAcc (relocateEntry fd.1 fd.2)) staged.1

/-- backup_originals (core.py:625-654): copy every traversed file into the
backup subtree, preserving relative paths, skipping existing backups. -/
def backup_originals (dryRun : Bool) (rootDir : PathC) (fs : FS) : FS :=
  if dryRun then fs
  else
    (iter_finder_order_files rootDir fs).foldl
      (fun fsAcc f =>
        let destDir := rootDir ++ [BACKUP_FOLDER_NAME] ++ f.dir.drop rootDir.length
        if fsExists fsAcc destDir f.fileName then fsAcc
        else fsWrite fsAcc ⟨destDir, f.stem, f.sfx, f.content⟩)
      fs

/-! ### Bates stamping (apply_bates_to_pdf / apply_bates_to_all_pdfs,
core.py:679-804) -/
/-- apply_bates_to_pdf: name-pattern mismatch is an informational skip
(`.ok none` in dry-run or skip); a filename-declared page count different
from the actual count raises SystemExit (`.error (.exit _)`); read/write
failures raise ordinary exceptions.  `p` carries the path (its stem drives
the pattern match), `cur` the file currently on disk at that path. -/
def apply_bates_to_pdf (o : Oracles) (cfg : Config) (p : FileEntry)
    (cur : Option FileEntry) : Except PyErr (Option FileEntry) :=
  match batesNameMatch p.stem with
  | none => .ok none
  | some g =>
    match cur with
    | none => .error (.exc "failed to open PDF")
    | some f =>
      match o.pdfRead f with
      | none => .error (.exc "failed to read PDF")
      | some numPages =>
        let expected : Int := match g.endNum with
          | some e => (e : Int) - (g.start : Int) + 1
          | none => 1
        if expected ≠ (numPages : Int) then
          .error (.exit ("Bates mismatch for " ++ p.fileName))
        else if cfg.dryRun then .ok none
        else
          match o.stampContent f with
          | some c => .ok (some ⟨p.dir, p.stem, p.sfx, c⟩)
          | none => .error (.exc "failed to write stamped PDF")

/-- Whether stamping `p` (with current page count `pages?`) hits the fatal
page-count consistency check. -/
def hasBatesMismatch (stem : String) (pages? : Option Nat) : Bool :=
  match batesNameMatch stem, pages? with
  | some g, some n =>
    decide ((match g.endNum with
      | some e => (e : Int) - (g.start : Int) + 1
      | none => 1) ≠ (n : Int))
  | _, _ => false

/-- Step 1 of apply_bates_to_all_pdfs in apply mode: reformat every listed
PDF to Letter, accumulating per-file errors. -/
def reformat_loop (o : Oracles) :
    List FileEntry → FS → List String → FS × List String
  | [], fs, errs => (fs, errs)
  | p :: rest, fs, errs =>
    match fsLookup fs p.dir p.fileName with
    | none =>
      reformat_loop o rest fs (errs ++ [pathStr p.parts ++ ": reformat failed"])
    | some f =>
      match o.reformatContent f with
      | some c => reformat_loop o rest (fsWrite fs ⟨f.dir, f.stem, f.sfx, c⟩) errs
      | none =>
        reformat_loop o rest fs (errs ++ [pathStr p.parts ++ ": reformat failed"])

/-- Step 2 of apply_bates_to_all_pdfs: the stamping loop.  The per-file
handler is `except Exception:` (core.py:792-797): it catches `.exc` and
accumulates an error entry, but a SystemExit from the page-count check
propagates and aborts the whole phase. -/
def stamp_loop (o : Oracles) (cfg : Config) :
    List FileEntry → FS → Nat → List String → (Except PyErr (Nat × List String)) × FS
  | [], fs, total, errs => (.ok (total, errs), fs)
  | p :: rest, fs, total, errs =>
    let cur := fsLookup fs p.dir p.fileName
    -- total_pages pre-read (`except Exception: pass`)
    let total1 := match cur with
      | some g => match o.pdfRead g with
        | some n => total + n
        | none => total
      | none => total
    match apply_bates_to_pdf o cfg p cur with
    | .ok (some stamped) => stamp_loop o cfg rest (fsWrite fs stamped) total1 errs
    | .ok none => stamp_loop o cfg rest fs total1 errs
    | .error (.exc m) =>
      stamp_loop o cfg rest fs total1 (errs ++ [pathStr p.parts ++ ": " ++ m])
    | .error (.exit m) => (.error (.exit m), fs)

/-- The PDFs listed for reformatting and stamping (core.py:756-761). -/
def eligible_pdfs (rootDir : PathC) (fs : FS) : List FileEntry :=
  (iter_finder_order_files rootDir fs).filter
    (fun f => decide (lowerStr f.sfx = PDF_EXT) && !(decide (BACKUP_FOLDER_NAME ∈ f.parts)))

/-- apply_bates_to_all_pdfs (core.py:747-804). -/
def apply_bates_to_all_pdfs (o : Oracles) (cfg : Config) (rootDir : PathC) (fs : FS) :
    (Except PyErr (Nat × List String)) × FS :=
  let pdfs := eligible_pdfs rootDir fs
  if pdfs.isEmpty then (.ok (0, []), fs)
  else
    let st1 := if cfg.dryRun then (fs, []) else reformat_loop o pdfs fs []
    stamp_loop o cfg pdfs st1.1 0 st1.2

/-! ### Folder ranges (collect_folder_bates_ranges, core.py:809-846) -/
abbrev RangeMap := List (PathC × (Nat × Nat))

def rmLookup (m : RangeMap) (p : PathC) : Option (Nat × Nat) :=
  (m.find? (fun e => decide (e.1 = p))).map Prod.snd

/-- Python dict assignment: replace the entry in place if the key exists
(keys are unique), else append. -/
def rmUpdate : RangeMap → PathC → (Nat × Nat) → RangeMap
  | [], p, v => [(p, v)]
  | entry :: tl, p, v =>
    if entry.1 = p then (p, v) :: tl else entry :: rmUpdate tl p v

/-- The inner `while True` walk (core.py:833-844): update `parent`'s range,
stop at the root (or, dead code for traversed files, at a parent containing
the backup folder name); else step to the parent directory.  The fuel is any
bound strictly above `parent.length`; each step shortens the path, and the
walk stops at the empty path at the latest, so with the fuel used by
`climbFolders` the cutoff arm is unreachable (the recursion is kept
structural so that concrete instances reduce in the kernel). -/
def climbFoldersAux (rootDir : PathC) (s e : Nat) : Nat → PathC → RangeMap → RangeMap
  | 0, _, m => m
  | fuel + 1, parent, m =>
    if BACKUP_FOLDER_NAME ∈ parent then m
    else
      let m1 := match rmLookup m parent with
        | none => rmUpdate m parent (s, e)
        | some (a, b) => rmUpdate m parent (min a s, max b e)
      if parent = rootDir ∨ parent = [] then m1
      else climbFoldersAux rootDir s e fuel parent.dropLast m1

def climbFolders (rootDir : PathC) (s e : Nat) (parent : PathC) (m : RangeMap) : RangeMap :=
  climbFoldersAux rootDir s e (parent.length + 1) parent m

def collect_folder_loop (rootDir : PathC) : List FileEntry → RangeMap → RangeMap
  | [], m => m
  | f :: rest, m =>
    if BACKUP_FOLDER_NAME ∈ f.parts then collect_folder_loop rootDir rest m
    else
      match batesNameMatch f.stem with
      | none => collect_folder_loop rootDir rest m
      | some g =>
        collect_folder_loop rootDir rest
          (climbFolders rootDir g.start (g.endNum.getD g.start) f.dir m)

def collect_folder_bates_ranges (rootDir : PathC) (fs : FS) : RangeMap :=
  collect_folder_loop rootDir (iter_finder_order_files rootDir fs) []

/-! ### Folder renaming (rename_folders_with_bates, core.py:849-908) -/
/-- Test `dst.exists()`: some file or directory occupies path `p`. -/
def pathExists (fs : FS) (p : PathC) : Bool :=
  fs.any (fun f => decide (f.parts.take p.length = p))

/-- Python `len(p.relative_to(root).parts)`. -/
def dirDepth (rootDir : PathC) (p : PathC) : Nat := (p.drop rootDir.length).length

/-- Python `folder.rename(dst)`: rewrite the directory prefix of every file under it. -/
def renameDirIn (fs : FS) (src dst : PathC) : FS :=
  fs.map (fun f =>
    if f.dir.take src.length = src then
      ⟨dst ++ f.dir.drop src.length, f.stem, f.sfx, f.content⟩
    else f)

def rename_folders_loop (cfg : Config) (rootDir : PathC) (ranges : RangeMap) :
    List PathC → FS → List (String × String) → FS × List (String × String)
  | [], fs, acc => (fs, acc)
  | folder :: rest, fs, acc =>
    if folder = rootDir then rename_folders_loop cfg rootDir ranges rest fs acc
    else if BACKUP_FOLDER_NAME ∈ folder then rename_folders_loop cfg rootDir ranges rest fs acc
    else
      let name := folder.getLastD ""
      if isHiddenName name then rename_folders_loop cfg rootDir ranges rest fs acc
      else
        match rmLookup ranges folder with
        | none => rename_folders_loop cfg rootDir ranges rest fs acc
        | some (s, e) =>
          if s = 0 ∨ e < s then rename_folders_loop cfg rootDir ranges rest fs acc
          else
            let base := if s = e then formatBatesBase cfg.pfx cfg.digits s none
                        else formatBatesBase cfg.pfx cfg.digits s (some e)
            let newName := if cfg.keepFolderName then base ++ " - " ++ name else base
            if newName = name then rename_folders_loop cfg rootDir ranges rest fs acc
            else
              let dst := folder.dropLast ++ [newName]
              if pathExists fs dst then rename_folders_loop cfg rootDir ranges rest fs acc
              else
                rename_folders_loop cfg rootDir ranges rest (renameDirIn fs folder dst)
                  (acc ++ [(pathStr folder, pathStr dst)])

/-- rename_folders_with_bates: directories deepest-first (stable descending
sort on relative depth, like `sorted(..., reverse=True)`). -/
def rename_folders_with_bates (cfg : Config) (rootDir : PathC) (ranges : RangeMap)
    (fs : FS) : FS × List (String × String) :=
  if ranges.isEmpty then (fs, [])
  else
    let dirs := (ranges.map Prod.fst).mergeSort
      (fun a b => decide (dirDepth rootDir b ≤ dirDepth rootDir a))
    rename_folders_loop cfg rootDir ranges dirs fs []

/-! ### Combined final PDF (create_combined_final_pdf, core.py:913-970) -/
def create_combined_final_pdf (o : Oracles) (cfg : Config) (rootDir : PathC) (fs : FS) :
    Option String × FS :=
  let ranges := collect_folder_bates_ranges rootDir fs
  match rmLookup ranges rootDir with
  | none => (none, fs)
  | some (s, e) =>
    if s = 0 ∨ e < s then (none, fs)
    else
      let infos := (iter_finder_order_files rootDir fs).filterMap
        (fun f =>
          if lowerStr f.sfx = PDF_EXT ∧ ¬ (BACKUP_FOLDER_NAME ∈ f.parts) then
            match batesNameMatch f.stem with
            | some g => some (g.start, f)
            | none => none
          else none)
      if infos.isEmpty then (none, fs)
      else
        let sorted := infos.mergeSort (fun a b => decide (a.1 ≤ b.1))
        let outStem := cfg.pfx ++ " " ++ (⟨padNum cfg.digits s⟩ : String) ++ "- "
          ++ cfg.pfx ++ " " ++ (⟨padNum cfg.digits e⟩ : String)
        let outPath := rootDir ++ [outStem ++ ".pdf"]
        if cfg.dryRun then (some (pathStr outPath), fs)
        else
          (some (pathStr outPath),
            fsWrite fs ⟨rootDir, outStem, ".pdf", (sorted.map (fun q => q.2.content)).sum⟩)

/-! ### The public entrypoint (run_pipeline, core.py:975-1180) -/
structure Summary where
  totalFiles : Nat
  totalPages : Nat
  renamed : List (String × String)
  skipped : List String
  errors : List String
deriving DecidableEq, Repr

/-- The tail of run_pipeline from build_renames on (core.py:1125-1171): the
SystemExit of a duplicate destination propagates with the filesystem exactly
as it stood — apply_renames is never reached; otherwise dry-run only reports
while apply mode renames, optionally renames folders, stamps, and combines. -/
def pipeline_after_items (o : Oracles) (cfg : Config) (rootDir : PathC) (fs : FS)
    (convRenamed : List (String × String)) (convErrors : List String)
    (items : List Item) : (Except PyErr Summary) × FS :=
  match build_renames cfg items with
  | .error err => (.error err, fs)
  | .ok ops =>
    let renamed0 := convRenamed ++ ops.map (fun op => (pathStr op.1, pathStr op.2))
    if cfg.dryRun then
      (.ok ⟨items.length, 0, renamed0, [], convErrors⟩, fs)
    else
      let fs1 := apply_renames cfg.dryRun ops fs
      let st2 :=
        if cfg.renameFolders then
          rename_folders_with_bates cfg rootDir (collect_folder_bates_ranges rootDir fs1) fs1
        else (fs1, [])
      match apply_bates_to_all_pdfs o cfg rootDir st2.1 with
      | (.error err, fs3) => (.error err, fs3)
      | (.ok (totalPages, stampErrs), fs3) =>
        let st4 :=
          if cfg.combineFinal then
            match create_combined_final_pdf o cfg rootDir fs3 with
            | (some outPath, fs4) => (fs4, [("COMBINED", outPath)])
            | (none, fs4) => (fs4, ([] : List (String × String)))
          else (fs3, [])
        (.ok ⟨items.length, totalPages, renamed0 ++ st2.2 ++ st4.2, [],
            convErrors ++ stampErrs⟩, st4.1)

/-- The CONVERSION_ONLY short-circuit (core.py:1035-1086). -/
def conversion_only_pipeline (o : Oracles) (cfg : Config) (rootDir : PathC) (fs : FS) :
    (Except PyErr Summary) × FS :=
  let r1 := convert_images_in_tree o cfg.dryRun (!cfg.dryRun) rootDir fs
  let r2 := convert_htmls_in_tree o cfg.dryRun (!cfg.dryRun) rootDir r1.1
  let r3 := convert_txts_in_tree o cfg.dryRun (!cfg.dryRun) rootDir r2.1
  let r4 := convert_docx_in_tree o cfg.dryRun rootDir r3.1
  let pdfs := (iter_finder_order_files rootDir r4.1).filter
    (fun f => decide (lowerStr f.sfx = PDF_EXT) && !(decide (BACKUP_FOLDER_NAME ∈ f.parts)))
  let st := if cfg.dryRun then (r4.1, []) else reformat_loop o pdfs r4.1 []
  (.ok ⟨pdfs.length, 0,
      r1.2.1 ++ r2.2.1 ++ r3.2.1 ++ r4.2.1, [],
      r1.2.2 ++ r2.2.2 ++ r3.2.2 ++ r4.2.2 ++ st.2⟩, st.1)

def run_pipeline (o : Oracles) (cfg : Config) (rootDir : PathC) (fs : FS) :
    (Except PyErr Summary) × FS :=
  let fs0 := if cfg.backupBeforeBates ∧ ¬ cfg.dryRun = true then
    backup_originals cfg.dryRun rootDir fs else fs
  if cfg.conversionOnly then conversion_only_pipeline o cfg rootDir fs0
  else
    let r1 := convert_images_in_tree o cfg.dryRun (!cfg.dryRun) rootDir fs0
    let r2 := convert_htmls_in_tree o cfg.dryRun (!cfg.dryRun) rootDir r1.1
    let r3 := convert_txts_in_tree o cfg.dryRun (!cfg.dryRun) rootDir r2.1
    let convRenamed := r1.2.1 ++ r2.2.1 ++ r3.2.1
    let convErrors := r1.2.2 ++ r2.2.2 ++ r3.2.2
    let blocking := find_blocking_files rootDir r3.1
    if ¬ blocking.isEmpty then
      (.ok ⟨0, 0, convRenamed, blocking.map (fun f => pathStr f.parts),
          ["Blocked file types detected. Run aborted."] ++ convErrors⟩, r3.1)
    else
      let pl := plan_items o cfg.dryRun rootDir r3.1
      if pl.2.isEmpty then
        (.ok ⟨0, 0, convRenamed, [],
            ["No eligible files found to process."] ++ convErrors⟩, pl.1)
      else
        pipeline_after_items o cfg rootDir pl.1 convRenamed convErrors
          (reorder_items_for_videos cfg.numberVideosAtEnd pl.2)

/-! ### Concrete fixtures for witnesses -/
/-- Oracles whose every PDF read reports `pages` pages and every conversion
and rewrite succeeds with content token 0. -/
def constOracles (pages : Nat) : Oracles :=
  ⟨fun _ => some pages, fun _ => some 0, fun _ => some 0, fun _ => some 0,
    fun _ => some 0, fun _ => some 0, fun _ => some 0⟩

def dryConfig : Config :=
  ⟨"CF", 4, 1, true, true, true, false, true, true, false, false⟩

def applyConfig : Config :=
  ⟨"CF", 4, 1, false, false, false, false, true, true, false, false⟩

/-- Two zero-page items at the same path plan the same destination. -/
def dupItems : List Item :=
  [⟨.pdf, 0, ["root"], "a", ".pdf", ⟩, ⟨.pdf, 0, ["root"], "a", ".pdf"⟩]

def c3File : FileEntry := ⟨["root"], "CF 0001-0008", ".pdf", 0⟩

def c7Combined : FileEntry := ⟨["root"], "CF 0001- CF 0244", ".pdf", 0⟩

def c7Plain : FileEntry := ⟨["root"], "notbates", ".pdf", 0⟩

/-! ### C9: folder-range aggregation -/
/-- The update applied to a directory's existing range by one labelled file:
first file sets `(start, end)`, later files expand to
`(min(existing.min, start), max(existing.max, end))` (core.py:836-840). -/
def rangeMerge (cur : Option (Nat × Nat)) (se : Nat × Nat) : Nat × Nat :=
  match cur with
  | none => se
  | some (a, b) => (min a se.1, max b se.2)

/-- The directories visited by the upward walk from `dir`: `dir`, its
parents, down to `rootDir` inclusive. -/
def chainOf (rootDir : PathC) (dir : PathC) : List PathC :=
  if dir = rootDir ∨ dir = [] then [dir]
  else dir :: chainOf rootDir dir.dropLast
termination_by dir.length
decreasing_by
  simp only [List.length_dropLast]
  cases dir with
  | nil => simp_all
  | cons a b => simp

/-- The `(start, end-or-start)` pairs, in file order, of the
grammar-matching files (outside the backup subtree) that contribute to
directory `d`'s range — those whose upward walk visits `d`. -/
def contributions (rootDir : PathC) (d : PathC) (files : List FileEntry) :
    List (Nat × Nat) :=
  files.filterMap (fun f =>
    if BACKUP_FOLDER_NAME ∈ f.parts then none
    else
      match batesNameMatch f.stem with
      | none => none
      | some g =>
        if d ∈ chainOf rootDir f.dir then some (g.start, g.endNum.getD g.start)
        else none)

/-! ### Basic facts about the character classes and decimal digits -/
theorem not_digit_of_space {c : Char} (h : isSpaceChar c = true) : isDigitChar c = false := by
  simp only [isSpaceChar, Bool.or_eq_true, decide_eq_true_eq] at h
  rcases h with ((((rfl | rfl) | rfl) | rfl) | rfl) | rfl <;> decide

theorem space_false_of_digit {c : Char} (h : isDigitChar c = true) : isSpaceChar c = false := by
  cases hs : isSpaceChar c
  · rfl
  · rw [not_digit_of_space hs] at h; cases h

theorem alnum_of_digit {c : Char} (h : isDigitChar c = true) : isAlnumChar c = true := by
  simp [isAlnumChar, isDigitChar] at h ⊢; simp [h]

theorem digitChar_toNat {d : Nat} (h : d < 10) : (digitChar d).toNat = 48 + d := by
  interval_cases d <;> decide

theorem isDigitChar_digitChar {d : Nat} (h : d < 10) : isDigitChar (digitChar d) = true := by
  interval_cases d <;> decide

theorem natDecimalAux_eq (fuel : Nat) :
    ∀ n acc, n ≤ fuel →
      natDecimalAux fuel n acc = (Nat.digits 10 n).reverse.map digitChar ++ acc := by
  induction fuel with
  | zero =>
    intro n acc h
    rw [Nat.le_zero.mp h]
    simp [natDecimalAux]
  | succ fuel ih =>
    intro n acc h
    by_cases hn : n = 0
    · subst hn; simp [natDecimalAux]
    · have hpos : 0 < n := Nat.pos_of_ne_zero hn
      have hdiv : n / 10 ≤ fuel := by
        have := Nat.div_lt_self hpos (by norm_num : 1 < 10)
        omega
      simp only [natDecimalAux, hn, if_false]
      rw [ih (n / 10) _ hdiv, Nat.digits_def' (by norm_num : 1 < 10) hpos]
      simp [List.reverse_cons, List.append_assoc]

theorem natDecimal_eq (n : Nat) :
    natDecimal n = if n = 0 then ['0'] else (Nat.digits 10 n).reverse.map digitChar := by
  unfold natDecimal
  by_cases hn : n = 0
  · simp [hn]
  · simp only [hn, if_false]
    rw [natDecimalAux_eq n n [] (Nat.le_refl n), List.append_nil]

theorem natDecimal_ne_nil (n : Nat) : natDecimal n ≠ [] := by
  rw [natDecimal_eq]
  split
  · simp
  · simp only [ne_eq, List.map_eq_nil_iff, List.reverse_eq_nil_iff]
    intro hnil
    exact absurd (Nat.digits_eq_nil_iff_eq_zero.mp hnil) (by assumption)

theorem natDecimal_all_digits {n : Nat} {c : Char} (h : c ∈ natDecimal n) :
    isDigitChar c = true := by
  rw [natDecimal_eq] at h
  split at h
  · rw [List.mem_singleton] at h; subst h; decide
  · simp only [List.mem_map, List.mem_reverse] at h
    obtain ⟨d, hd, rfl⟩ := h
    exact isDigitChar_digitChar (Nat.digits_lt_base (by norm_num) hd)

theorem padNum_ne_nil (w n : Nat) : padNum w n ≠ [] := by
  unfold padNum
  intro h
  rw [List.append_eq_nil] at h
  exact natDecimal_ne_nil n h.2

theorem padNum_all_digits {w n : Nat} {c : Char} (h : c ∈ padNum w n) :
    isDigitChar c = true := by
  unfold padNum at h
  rcases List.mem_append.mp h with h | h
  · rw [List.eq_of_mem_replicate h]; decide
  · exact natDecimal_all_digits h

theorem digitsToNat_eq_foldl (cs : List Char) : digitsToNat cs = cs.foldl digitStep 0 := rfl

theorem foldl_digitStep_zeros (k : Nat) :
    List.foldl digitStep 0 (List.replicate k '0') = 0 := by
  induction k with
  | zero => rfl
  | succ k ih => rw [List.replicate_succ, List.foldl_cons]; exact ih

theorem foldl_digitStep_bigEndian (L : List Nat) :
    ∀ a, (∀ d ∈ L, d < 10) →
      List.foldl digitStep a ((L.map digitChar).reverse) =
        a * 10 ^ L.length + Nat.ofDigits 10 L := by
  induction L with
  | nil => intro a _; simp [Nat.ofDigits_nil]
  | cons d tl ih =>
    intro a h
    have hd : d < 10 := h d (List.mem_cons_self d tl)
    have htl : ∀ x ∈ tl, x < 10 := fun x hx => h x (List.mem_cons_of_mem d hx)
    simp only [List.map_cons, List.reverse_cons, List.foldl_append, List.foldl_cons,
      List.foldl_nil]
    rw [ih a htl]
    simp only [digitStep, digitChar_toNat hd, Nat.add_sub_cancel_left,
      Nat.ofDigits_cons, List.length_cons]
    ring

theorem digitsToNat_natDecimal (n : Nat) : digitsToNat (natDecimal n) = n := by
  rw [natDecimal_eq]
  split
  · subst n; decide
  · rw [digitsToNat_eq_foldl, List.map_reverse,
      foldl_digitStep_bigEndian (Nat.digits 10 n) 0
        (fun d hd => Nat.digits_lt_base (by norm_num) hd),
      Nat.zero_mul, Nat.zero_add, Nat.ofDigits_digits]

theorem digitsToNat_padNum (w n : Nat) : digitsToNat (padNum w n) = n := by
  unfold padNum
  rw [digitsToNat_eq_foldl, List.foldl_append, foldl_digitStep_zeros,
    ← digitsToNat_eq_foldl, digitsToNat_natDecimal]

/-! ### takeWhile / dropWhile over structured concatenations -/
theorem takeWhile_append_of_all {α} (p : α → Bool) (xs ys : List α)
    (h : ∀ c ∈ xs, p c = true) :
    (xs ++ ys).takeWhile p = xs ++ ys.takeWhile p := by
  induction xs with
  | nil => simp
  | cons a tl ih =>
    have ha : p a = true := h a (List.mem_cons_self a tl)
    have ih' := ih (fun c hc => h c (List.mem_cons_of_mem a hc))
    simp [List.takeWhile_cons, ha, ih']

theorem dropWhile_append_of_all {α} (p : α → Bool) (xs ys : List α)
    (h : ∀ c ∈ xs, p c = true) :
    (xs ++ ys).dropWhile p = ys.dropWhile p := by
  induction xs with
  | nil => simp
  | cons a tl ih =>
    have ha : p a = true := h a (List.mem_cons_self a tl)
    have ih' := ih (fun c hc => h c (List.mem_cons_of_mem a hc))
    simp [List.dropWhile_cons, ha, ih']

theorem takeWhile_cons_false {α} (p : α → Bool) (a : α) (tl : List α)
    (h : p a = false) : (a :: tl).takeWhile p = [] := by
  simp [List.takeWhile_cons, h]

theorem dropWhile_cons_false {α} (p : α → Bool) (a : α) (tl : List α)
    (h : p a = false) : (a :: tl).dropWhile p = a :: tl := by
  simp [List.dropWhile_cons, h]

theorem takeWhile_all_eq_self {α} (p : α → Bool) (xs : List α)
    (h : ∀ c ∈ xs, p c = true) : xs.takeWhile p = xs := by
  have := takeWhile_append_of_all p xs [] h
  simpa using this

theorem dropWhile_all_eq_nil {α} (p : α → Bool) (xs : List α)
    (h : ∀ c ∈ xs, p c = true) : xs.dropWhile p = [] := by
  have := dropWhile_append_of_all p xs [] h
  simpa using this

theorem mem_of_getLast?_eq_some {α} :
    ∀ {l : List α} {a : α}, l.getLast? = some a → a ∈ l
  | [x], a, h => by
    simp only [List.getLast?_singleton, Option.some.injEq] at h
    simp [h]
  | x :: y :: tl, a, h => by
    rw [List.getLast?_cons_cons] at h
    exact List.mem_cons_of_mem x (mem_of_getLast?_eq_some h)

theorem self_mem_listSuffixes (l : List Char) : l ∈ listSuffixes l := by
  cases l <;> simp [listSuffixes]

/-! ### Matching the well-formed stems produced by the allocator -/
theorem tailMatch_nil : tailMatch [] = true := by decide

/-- The `" - originalStem"` tail matches the optional suffix group whenever
the original stem contains no newline. -/
theorem tailMatch_dash_sep (t : List Char) (h : ∀ c ∈ t, c ≠ '\n') :
    tailMatch (' ' :: '-' :: ' ' :: t) = true := by
  have hta : tailAfterDash (' ' :: t) = true := by
    unfold tailAfterDash
    rw [List.any_eq_true]
    refine ⟨(' ' :: t).takeWhile isSpaceChar, self_mem_listSuffixes _, ?_⟩
    rw [List.takeWhile_append_dropWhile]
    unfold dotPlusDollar
    have hne : ¬ (' ' :: t).getLast? = some '\n' := by
      intro hl
      have hmem := mem_of_getLast?_eq_some hl
      rcases List.mem_cons.mp hmem with h2 | h2
      · exact absurd h2 (by decide)
      · exact h _ h2 rfl
    rw [if_neg hne]
    simp only [List.isEmpty_cons, Bool.not_false, Bool.true_and, noNewline, List.all_eq_true]
    intro c hc
    rcases List.mem_cons.mp hc with h2 | h2
    · subst h2; decide
    · simpa using h c h2
  have hdrop : (' ' :: '-' :: ' ' :: t).dropWhile isSpaceChar = '-' :: ' ' :: t := by
    rw [List.dropWhile_cons]
    simp only [show isSpaceChar ' ' = true from rfl, if_true]
    exact dropWhile_cons_false _ _ _ (by decide)
  unfold tailMatch
  rw [hdrop]
  show (tailAfterDash (' ' :: t) || dollarOnly (' ' :: '-' :: ' ' :: t)) = true
  rw [hta]
  rfl

/-- Core computation: the matcher on a stem of the shape
`ALNUM+ ' ' DIGITS+ tail` where the tail is empty or `" - originalStem"`. -/
theorem batesNameMatch_single (l padS Y : List Char) (stem : String)
    (hdata : stem.data = l ++ ' ' :: (padS ++ Y)) (hl : l ≠ [])
    (hla : ∀ c ∈ l, isAlnumChar c = true)
    (hdne : padS ≠ []) (hd : ∀ c ∈ padS, isDigitChar c = true)
    (hY : Y = [] ∨ ∃ t, Y = ' ' :: '-' :: ' ' :: t ∧ ∀ c ∈ t, c ≠ '\n') :
    batesNameMatch stem = some ⟨⟨l⟩, digitsToNat padS, none⟩ := by
  obtain ⟨c0, ptl, rfl⟩ : ∃ c0 ptl, padS = c0 :: ptl := by
    cases padS with
    | nil => exact absurd rfl hdne
    | cons a b => exact ⟨a, b, rfl⟩
  have hc0 : isDigitChar c0 = true := hd c0 (List.mem_cons_self _ _)
  have hYd : Y.takeWhile isDigitChar = [] ∧ Y.dropWhile isDigitChar = Y := by
    rcases hY with rfl | ⟨t, rfl, _⟩
    · exact ⟨rfl, rfl⟩
    · exact ⟨takeWhile_cons_false _ _ _ (by decide),
        dropWhile_cons_false _ _ _ (by decide)⟩
  have h1 : (l ++ ' ' :: ((c0 :: ptl) ++ Y)).takeWhile isAlnumChar = l := by
    rw [takeWhile_append_of_all _ _ _ hla,
      takeWhile_cons_false _ _ _ (by decide : isAlnumChar ' ' = false), List.append_nil]
  have h2 : (l ++ ' ' :: ((c0 :: ptl) ++ Y)).dropWhile isAlnumChar
      = ' ' :: ((c0 :: ptl) ++ Y) := by
    rw [dropWhile_append_of_all _ _ _ hla,
      dropWhile_cons_false _ _ _ (by decide : isAlnumChar ' ' = false)]
  have h3 : (' ' :: ((c0 :: ptl) ++ Y)).takeWhile isSpaceChar = [' '] := by
    rw [List.takeWhile_cons]
    simp only [show isSpaceChar ' ' = true from rfl, if_true, List.cons_append]
    rw [takeWhile_cons_false _ _ _ (space_false_of_digit hc0)]
  have h4 : (' ' :: ((c0 :: ptl) ++ Y)).dropWhile isSpaceChar = (c0 :: ptl) ++ Y := by
    rw [List.dropWhile_cons]
    simp only [show isSpaceChar ' ' = true from rfl, if_true, List.cons_append]
    rw [dropWhile_cons_false _ _ _ (space_false_of_digit hc0)]
  have h5 : ((c0 :: ptl) ++ Y).takeWhile isDigitChar = c0 :: ptl := by
    rw [takeWhile_append_of_all _ _ _ hd, hYd.1, List.append_nil]
  have h6 : ((c0 :: ptl) ++ Y).dropWhile isDigitChar = Y := by
    rw [dropWhile_append_of_all _ _ _ hd, hYd.2]
  have h7 : tailMatch Y = true := by
    rcases hY with rfl | ⟨t, rfl, ht⟩
    · exact tailMatch_nil
    · exact tailMatch_dash_sep t ht
  have hlE : l.isEmpty = false := by
    cases l with
    | nil => exact absurd rfl hl
    | cons a b => rfl
  simp only [batesNameMatch, hdata, h1, h2, h3, h4, h5, h6, hlE, Bool.false_eq_true,
    if_false, List.isEmpty_cons, if_true]
  rcases hY with rfl | ⟨t, rfl, _⟩
  · simp [h7]
  · simp [h7]

/-- Core computation: the matcher on a stem of the shape
`ALNUM+ ' ' DIGITS+ '-' DIGITS+ tail`. -/
theorem batesNameMatch_range (l padS padE Y : List Char) (stem : String)
    (hdata : stem.data = l ++ ' ' :: (padS ++ '-' :: (padE ++ Y))) (hl : l ≠ [])
    (hla : ∀ c ∈ l, isAlnumChar c = true)
    (hdne : padS ≠ []) (hd : ∀ c ∈ padS, isDigitChar c = true)
    (hene : padE ≠ []) (he : ∀ c ∈ padE, isDigitChar c = true)
    (hY : Y = [] ∨ ∃ t, Y = ' ' :: '-' :: ' ' :: t ∧ ∀ c ∈ t, c ≠ '\n') :
    batesNameMatch stem = some ⟨⟨l⟩, digitsToNat padS, some (digitsToNat padE)⟩ := by
  obtain ⟨c0, ptl, rfl⟩ : ∃ c0 ptl, padS = c0 :: ptl := by
    cases padS with
    | nil => exact absurd rfl hdne
    | cons a b => exact ⟨a, b, rfl⟩
  have hc0 : isDigitChar c0 = true := hd c0 (List.mem_cons_self _ _)
  have hYd : Y.takeWhile isDigitChar = [] ∧ Y.dropWhile isDigitChar = Y := by
    rcases hY with rfl | ⟨t, rfl, _⟩
    · exact ⟨rfl, rfl⟩
    · exact ⟨takeWhile_cons_false _ _ _ (by decide),
        dropWhile_cons_false _ _ _ (by decide)⟩
  have h1 : (l ++ ' ' :: ((c0 :: ptl) ++ '-' :: (padE ++ Y))).takeWhile isAlnumChar = l := by
    rw [takeWhile_append_of_all _ _ _ hla,
      takeWhile_cons_false _ _ _ (by decide : isAlnumChar ' ' = false), List.append_nil]
  have h2 : (l ++ ' ' :: ((c0 :: ptl) ++ '-' :: (padE ++ Y))).dropWhile isAlnumChar
      = ' ' :: ((c0 :: ptl) ++ '-' :: (padE ++ Y)) := by
    rw [dropWhile_append_of_all _ _ _ hla,
      dropWhile_cons_false _ _ _ (by decide : isAlnumChar ' ' = false)]
  have h3 : (' ' :: ((c0 :: ptl) ++ '-' :: (padE ++ Y))).takeWhile isSpaceChar = [' '] := by
    rw [List.takeWhile_cons]
    simp only [show isSpaceChar ' ' = true from rfl, if_true, List.cons_append]
    rw [takeWhile_cons_false _ _ _ (space_false_of_digit hc0)]
  have h4 : (' ' :: ((c0 :: ptl) ++ '-' :: (padE ++ Y))).dropWhile isSpaceChar
      = (c0 :: ptl) ++ '-' :: (padE ++ Y) := by
    rw [List.dropWhile_cons]
    simp only [show isSpaceChar ' ' = true from rfl, if_true, List.cons_append]
    rw [dropWhile_cons_false _ _ _ (space_false_of_digit hc0)]
  have h5 : ((c0 :: ptl) ++ '-' :: (padE ++ Y)).takeWhile isDigitChar = c0 :: ptl := by
    rw [takeWhile_append_of_all _ _ _ hd,
      takeWhile_cons_false _ _ _ (by decide : isDigitChar '-' = false), List.append_nil]
  have h6 : ((c0 :: ptl) ++ '-' :: (padE ++ Y)).dropWhile isDigitChar
      = '-' :: (padE ++ Y) := by
    rw [dropWhile_append_of_all _ _ _ hd,
      dropWhile_cons_false _ _ _ (by decide : isDigitChar '-' = false)]
  have h7 : (padE ++ Y).takeWhile isDigitChar = padE := by
    rw [takeWhile_append_of_all _ _ _ he, hYd.1, List.append_nil]
  have h8 : tailMatch Y = true := by
    rcases hY with rfl | ⟨t, rfl, ht⟩
    · exact tailMatch_nil
    · exact tailMatch_dash_sep t ht
  have hlE : l.isEmpty = false := by
    cases l with
    | nil => exact absurd rfl hl
    | cons a b => rfl
  have heE : padE.isEmpty = false := by
    cases padE with
    | nil => exact absurd rfl hene
    | cons a b => rfl
  have h9 : (padE ++ Y).dropWhile isDigitChar = Y := by
    rw [dropWhile_append_of_all _ _ _ he, hYd.2]
  simp only [batesNameMatch, hdata, h1, h2, h3, h4, h5, h6, h7, h9, hlE, Bool.false_eq_true,
    if_false, List.isEmpty_cons, if_true]
  rw [if_pos (by rw [heE, h8]; rfl)]

/-! ### C4: the allocator/parser round trip -/
/-- C4 (amended): for every nonempty prefix made of ASCII letters and digits,
digit width ≥ 1, start ≥ 1, optional end ≥ start, the label text produced by
the allocator — with or without the appended " - originalStem" suffix, for
any original stem containing no newline — re-parses under BATES_NAME_PATTERN
to exactly the same (prefix, start, end). -/
theorem bates_label_roundtrip (pfxS : String) (d s : Nat) (e? : Option Nat)
    (t? : Option String)
    (hd1 : 1 ≤ d) (hs1 : 1 ≤ s) (hse : ∀ e, e? = some e → s ≤ e)
    (hpne : pfxS.data ≠ [])
    (hpa : ∀ c ∈ pfxS.data, isAlnumChar c = true)
    (ht : ∀ t, t? = some t → ∀ c ∈ t.data, c ≠ '\n') :
    batesNameMatch (formatBatesStem pfxS d s e? t?) = some ⟨pfxS, s, e?⟩ := by
  obtain ⟨l⟩ := pfxS
  have hl : l ≠ [] := hpne
  have hpS : ∀ c ∈ padNum d s, isDigitChar c = true := fun c hc => padNum_all_digits hc
  rcases e? with _ | e <;> rcases t? with _ | t
  · have hdata : (formatBatesStem ⟨l⟩ d s none none).data
        = l ++ ' ' :: (padNum d s ++ []) := by
      simp [formatBatesStem, formatBatesBase]
    rw [batesNameMatch_single l (padNum d s) [] _ hdata hl hpa
        (padNum_ne_nil d s) hpS (Or.inl rfl), digitsToNat_padNum]
  · have hdata : (formatBatesStem ⟨l⟩ d s none (some t)).data
        = l ++ ' ' :: (padNum d s ++ (' ' :: '-' :: ' ' :: t.data)) := by
      simp [formatBatesStem, formatBatesBase]
    rw [batesNameMatch_single l (padNum d s) (' ' :: '-' :: ' ' :: t.data) _ hdata hl hpa
        (padNum_ne_nil d s) hpS (Or.inr ⟨t.data, rfl, ht t rfl⟩), digitsToNat_padNum]
  · have hdata : (formatBatesStem ⟨l⟩ d s (some e) none).data
        = l ++ ' ' :: (padNum d s ++ '-' :: (padNum d e ++ [])) := by
      simp [formatBatesStem, formatBatesBase]
    rw [batesNameMatch_range l (padNum d s) (padNum d e) [] _ hdata hl hpa
        (padNum_ne_nil d s) hpS (padNum_ne_nil d e)
        (fun c hc => padNum_all_digits hc) (Or.inl rfl),
      digitsToNat_padNum, digitsToNat_padNum]
  · have hdata : (formatBatesStem ⟨l⟩ d s (some e) (some t)).data
        = l ++ ' ' :: (padNum d s ++ '-' :: (padNum d e ++ (' ' :: '-' :: ' ' :: t.data))) := by
      simp [formatBatesStem, formatBatesBase]
    rw [batesNameMatch_range l (padNum d s) (padNum d e) (' ' :: '-' :: ' ' :: t.data) _
        hdata hl hpa (padNum_ne_nil d s) hpS (padNum_ne_nil d e)
        (fun c hc => padNum_all_digits hc) (Or.inr ⟨t.data, rfl, ht t rfl⟩),
      digitsToNat_padNum, digitsToNat_padNum]

/-- C4 counterexample: as literally stated ("for every prefix string"), the
round trip fails.  A prefix that is not a nonempty run of `[A-Za-z0-9]`
(here "A B") produces a label that no longer matches the grammar at all,
and an original stem containing a newline likewise breaks the re-parse. -/
theorem bates_label_roundtrip_counterexample :
    batesNameMatch (formatBatesStem "A B" 4 1 (some 8) none) ≠ some ⟨"A B", 1, some 8⟩ ∧
    batesNameMatch (formatBatesStem "CF" 4 1 none (some "a\nb")) ≠ some ⟨"CF", 1, none⟩ := by
  constructor <;> decide

theorem bates_label_roundtrip_witness :
    batesNameMatch (formatBatesStem "CF" 4 1 (some 8) (some "Exhibit A")) =
      some ⟨"CF", 1, some 8⟩ :=
  bates_label_roundtrip "CF" 4 1 (some 8) (some "Exhibit A")
    (by decide) (by decide)
    (fun e he => by injection he with h; omega)
    (by decide) (by decide)
    (fun t htt => by injection htt with h; subst h; decide)

theorem allocRanges_length (pages : List Nat) :
    ∀ s, ((allocRanges s pages).1).length = pages.length := by
  induction pages with
  | nil => intro s; rfl
  | cons p ps ih => intro s; simp [allocRanges, ih]

theorem allocRanges_get (pages : List Nat) :
    ∀ s i (hi : i < pages.length), 1 ≤ s →
      (allocRanges s pages).1[i]? =
        some (s + (pages.take i).sum, s + (pages.take i).sum + pages[i] - 1) := by
  induction pages with
  | nil => intro s i hi h1; exact absurd hi (by simp)
  | cons p ps ih =>
    intro s i hi hs
    cases i with
    | zero => simp [allocRanges]
    | succ i =>
      have hi' : i < ps.length := by simpa using hi
      have hs' : 1 ≤ s + p := by omega
      have he : s + p - 1 + 1 = s + p := by omega
      simp only [allocRanges, List.getElem?_cons_succ, he]
      rw [ih (s + p) i hi' hs']
      simp only [List.take_succ_cons, List.sum_cons, List.getElem_cons_succ]
      congr 2 <;> omega

theorem allocRanges_counter (pages : List Nat) :
    ∀ s, 1 ≤ s → (allocRanges s pages).2 = s + pages.sum := by
  induction pages with
  | nil => intro s _; simp [allocRanges]
  | cons p ps ih =>
    intro s hs
    have he : s + p - 1 + 1 = s + p := by omega
    simp only [allocRanges, he]
    rw [ih (s + p) (by omega)]
    simp only [List.sum_cons]
    omega

/-- C1: allocation assigns item `i` the contiguous range
`start_i = s + (p_1 + ... + p_{i-1})`, `end_i = start_i + p_i - 1`;
consecutive ranges satisfy `end_i + 1 = start_{i+1}`; and the counter left
after all items is `end_N + 1` (equivalently `s + Σ p_i`). -/
theorem build_renames_allocation (pages : List Nat) (s : Nat)
    (hp : ∀ p ∈ pages, 1 ≤ p) (hs : 1 ≤ s) :
    (∀ i (hi : i < pages.length),
        (allocRanges s pages).1[i]? =
          some (s + (pages.take i).sum, s + (pages.take i).sum + pages[i] - 1)) ∧
    (∀ i s1 e1 s2 e2, (allocRanges s pages).1[i]? = some (s1, e1) →
        (allocRanges s pages).1[i + 1]? = some (s2, e2) → e1 + 1 = s2) ∧
    ((allocRanges s pages).2 = s + pages.sum) ∧
    (∀ sN eN, (allocRanges s pages).1[pages.length - 1]? = some (sN, eN) →
        (allocRanges s pages).2 = eN + 1) := by
  have hget := fun i hi => allocRanges_get pages s i hi hs
  have hlen := allocRanges_length pages s
  refine ⟨hget, ?_, allocRanges_counter pages s hs, ?_⟩
  · intro i s1 e1 s2 e2 h1 h2
    have hi1 : i + 1 < pages.length := by
      obtain ⟨hb, -⟩ := List.getElem?_eq_some.mp h2
      rwa [hlen] at hb
    have hi : i < pages.length := by omega
    rw [hget i hi] at h1
    rw [hget (i + 1) hi1] at h2
    have hpi : 1 ≤ pages[i] := hp _ (List.getElem_mem hi)
    have hsum : (pages.take (i + 1)).sum = (pages.take i).sum + pages[i] :=
      List.sum_take_succ pages i hi
    injection h1 with h1'
    injection h2 with h2'
    have e1eq : e1 = s + (pages.take i).sum + pages[i] - 1 := by
      have := congrArg Prod.snd h1'; simpa using this.symm
    have s2eq : s2 = s + (pages.take (i + 1)).sum := by
      have := congrArg Prod.fst h2'; simpa using this.symm
    rw [e1eq, s2eq, hsum]
    omega
  · intro sN eN hN
    have hne : pages ≠ [] := by
      intro hnil
      subst hnil
      simp [allocRanges] at hN
    have hlast : pages.length - 1 < pages.length := by
      cases pages with
      | nil => exact absurd rfl hne
      | cons a b => simp
    rw [hget _ hlast] at hN
    injection hN with hN'
    have heq : eN = s + (pages.take (pages.length - 1)).sum
        + pages[pages.length - 1] - 1 := by
      have := congrArg Prod.snd hN'; simpa using this.symm
    have hpl : 1 ≤ pages[pages.length - 1] := hp _ (List.getElem_mem hlast)
    have hsumall : (pages.take (pages.length - 1)).sum
        + pages[pages.length - 1] = pages.sum := by
      have hstep := List.sum_take_succ pages (pages.length - 1) hlast
      have hfull : pages.take (pages.length - 1 + 1) = pages := by
        rw [Nat.sub_add_cancel (by cases pages with
          | nil => exact absurd rfl hne
          | cons a b => simp)]
        exact List.take_length ..
      rw [hfull] at hstep
      omega
    rw [allocRanges_counter pages s hs, heq]
    omega

theorem build_renames_allocation_witness :
    (allocRanges 5 [1, 3, 1]).1[1]? = some (6, 8) ∧ (allocRanges 5 [1, 3, 1]).2 = 10 := by
  have h := build_renames_allocation [1, 3, 1] 5 (by decide) (by decide)
  exact ⟨(h.1 1 (by decide)).trans (by decide), h.2.2.1.trans (by decide)⟩

/-- C6 counterexample: the claim fixes `reservedBand = 0.75 inch = 54pt`, but
the code caps the band at a third of the page height, so on a page of height
90pt the code scales by `min((90-30)/90, 1) = 2/3`, not `min((90-54)/90, 1)
= 2/5`. -/
theorem stamp_scale_counterexample :
    stamp_scale 90 ≠ min ((90 - BATES_FOOTER_BAND) / 90) 1 := by
  norm_num [stamp_scale, stamp_reserved, BATES_FOOTER_BAND, inchPts, min_def]

/-- C6 (amended): the content scale is `min((h − reserved)/h, 1)` with
`reserved = min(0.75 inch, h/3)`; in particular the claimed fixed-band
formula holds on every page of height ≥ 2.25 inch (162pt), and the rescaled
content always sits above the reserved band (`ty ≥ reserved`). -/
theorem stamp_scale_reserved_band (h : ℚ) (hh : 162 ≤ h) :
    stamp_reserved h = BATES_FOOTER_BAND ∧
    stamp_scale h = min ((h - BATES_FOOTER_BAND) / h) 1 ∧
    stamp_reserved h ≤ stamp_ty h := by
  have hpos : (0 : ℚ) < h := by linarith
  have hres : stamp_reserved h = BATES_FOOTER_BAND := by
    unfold stamp_reserved
    rw [min_eq_left]
    rw [BATES_FOOTER_BAND, inchPts, le_div_iff₀ (by norm_num : (0 : ℚ) < 3)]
    linarith
  refine ⟨hres, by unfold stamp_scale; rw [hres], ?_⟩
  unfold stamp_ty
  have hs1 : stamp_scale h ≤ (h - stamp_reserved h) / h := min_le_left _ _
  have hmul : h * stamp_scale h ≤ h - stamp_reserved h := by
    have hstep := mul_le_mul_of_nonneg_left hs1 (le_of_lt hpos)
    rwa [mul_comm h ((h - stamp_reserved h) / h),
      div_mul_cancel₀ _ (ne_of_gt hpos)] at hstep
  linarith

theorem stamp_scale_reserved_band_witness :
    stamp_scale 612 = min ((612 - BATES_FOOTER_BAND) / 612) 1 ∧
    stamp_scale 612 = 31 / 34 := by
  have h := stamp_scale_reserved_band 612 (by norm_num)
  refine ⟨h.2.1, h.2.1.trans ?_⟩
  norm_num [BATES_FOOTER_BAND, inchPts, min_def]

/-- C8: Letter reformatting picks the landscape target iff `w ≥ h`, scales
uniformly by `min(targetW/w, targetH/h)`, and centers the result: the two
horizontal margins are equal (`2·tx + w·scale = targetW`), likewise
vertically, and the scaled content fits inside the target; the 800×600 page
maps into the 792×612 landscape target at scale 99/100 with offsets (0, 9). -/
theorem letter_reformat_geometry (w h : ℚ) (hw : 0 < w) (hh : 0 < h) :
    (w ≥ h → ((reformat_page_geom w h).targetW, (reformat_page_geom w h).targetH)
        = LETTER_LANDSCAPE) ∧
    (w < h → ((reformat_page_geom w h).targetW, (reformat_page_geom w h).targetH)
        = LETTER_PORTRAIT) ∧
    (reformat_page_geom w h).scale
      = min ((reformat_page_geom w h).targetW / w) ((reformat_page_geom w h).targetH / h) ∧
    2 * (reformat_page_geom w h).tx + w * (reformat_page_geom w h).scale
      = (reformat_page_geom w h).targetW ∧
    2 * (reformat_page_geom w h).ty + h * (reformat_page_geom w h).scale
      = (reformat_page_geom w h).targetH ∧
    w * (reformat_page_geom w h).scale ≤ (reformat_page_geom w h).targetW ∧
    h * (reformat_page_geom w h).scale ≤ (reformat_page_geom w h).targetH ∧
    reformat_page_geom 800 600 = ⟨792, 612, 99 / 100, 0, 9⟩ := by
  have hfitW : ∀ tw th : ℚ, w * min (tw / w) (th / h) ≤ tw := by
    intro tw th
    have h1 : min (tw / w) (th / h) ≤ tw / w := min_le_left _ _
    have h2 := mul_le_mul_of_nonneg_left h1 (le_of_lt hw)
    rwa [mul_comm w (tw / w), div_mul_cancel₀ _ (ne_of_gt hw)] at h2
  have hfitH : ∀ tw th : ℚ, h * min (tw / w) (th / h) ≤ th := by
    intro tw th
    have h1 : min (tw / w) (th / h) ≤ th / h := min_le_right _ _
    have h2 := mul_le_mul_of_nonneg_left h1 (le_of_lt hh)
    rwa [mul_comm h (th / h), div_mul_cancel₀ _ (ne_of_gt hh)] at h2
  have hconc : reformat_page_geom 800 600 = ⟨792, 612, 99 / 100, 0, 9⟩ := by
    norm_num [reformat_page_geom, choose_letter_size, LETTER_LANDSCAPE, LETTER_PORTRAIT,
      min_def]
  by_cases hwh : w ≥ h
  · refine ⟨fun _ => ?_, fun hlt => absurd hwh (not_le.mpr hlt), ?_, ?_, ?_, ?_, ?_, hconc⟩ <;>
      simp only [reformat_page_geom, choose_letter_size, hwh, if_pos, if_true,
        LETTER_LANDSCAPE, LETTER_PORTRAIT]
    · ring
    · ring
    · exact hfitW 792 612
    · exact hfitH 792 612
  · have hlt : w < h := not_le.mp hwh
    refine ⟨fun hge => absurd hge hwh, fun _ => ?_, ?_, ?_, ?_, ?_, ?_, hconc⟩ <;>
      simp only [reformat_page_geom, choose_letter_size, hwh, if_neg, if_false,
        LETTER_LANDSCAPE, LETTER_PORTRAIT]
    · ring
    · ring
    · exact hfitW 612 792
    · exact hfitH 612 792

theorem letter_reformat_geometry_witness :
    reformat_page_geom 800 600 = ⟨792, 612, 99 / 100, 0, 9⟩ :=
  (letter_reformat_geometry 800 600 (by norm_num) (by norm_num)).2.2.2.2.2.2.2

/-- C10: classification and blocking compare extensions case-insensitively:
both depend on the suffix only through `lowerStr`, and the uppercase forms
of the examples behave exactly as their lowercase forms. -/
theorem extension_matching_case_insensitive :
    (∀ s1 s2 : String, lowerStr s1 = lowerStr s2 →
        classifySuffix s1 = classifySuffix s2 ∧ isBlockedExt s1 = isBlockedExt s2) ∧
    isBlockedExt ".DOC" = true ∧ isBlockedExt ".Eml" = true ∧ isBlockedExt ".MSG" = true ∧
    classifySuffix ".PDF" = classifySuffix ".pdf" ∧
    classifySuffix ".DOCX" = classifySuffix ".docx" ∧
    classifySuffix ".XLSX" = classifySuffix ".xlsx" ∧
    classifySuffix ".MP4" = classifySuffix ".mp4" ∧
    classifySuffix ".pdf" = SuffixClass.pdfDoc ∧
    classifySuffix ".docx" = SuffixClass.wordDoc ∧
    classifySuffix ".xlsx" = SuffixClass.excelDoc ∧
    classifySuffix ".mp4" = SuffixClass.videoDoc := by
  refine ⟨?_, by decide, by decide, by decide, by decide, by decide, by decide,
    by decide, by decide, by decide, by decide, by decide⟩
  intro s1 s2 h
  exact ⟨by simp only [classifySuffix, h], by simp only [isBlockedExt, h]⟩

theorem extension_matching_case_insensitive_witness :
    classifySuffix ".DOC" = classifySuffix ".doc" ∧
    isBlockedExt ".DOC" = isBlockedExt ".doc" :=
  extension_matching_case_insensitive.1 ".DOC" ".doc" (by decide)

/-! ### C2: duplicate destinations abort before any rename -/
/-- C2: whenever the planned rename operations carry a duplicate destination,
build_renames raises SystemExit and the pipeline tail returns that fatal
error with the filesystem exactly as it was handed in — apply_renames is
never invoked, so the rename phase touches no files. -/
theorem duplicate_destination_aborts (o : Oracles) (cfg : Config) (rootDir : PathC)
    (fs : FS) (convRenamed : List (String × String)) (convErrors : List String)
    (items : List Item)
    (hdup : ¬ ((build_renames_ops cfg cfg.startCounter items).map Prod.snd).Nodup) :
    build_renames cfg items
      = .error (.exit "Conflict: multiple files planned for same destination. Aborting.") ∧
    pipeline_after_items o cfg rootDir fs convRenamed convErrors items
      = (.error (.exit "Conflict: multiple files planned for same destination. Aborting."),
          fs) := by
  have hb : build_renames cfg items
      = .error (.exit "Conflict: multiple files planned for same destination. Aborting.") := by
    unfold build_renames
    rw [if_neg hdup]
  exact ⟨hb, by unfold pipeline_after_items; rw [hb]⟩

theorem duplicate_destination_aborts_witness :
    pipeline_after_items (constOracles 1) applyConfig ["root"] [] [] [] dupItems
      = (.error (.exit "Conflict: multiple files planned for same destination. Aborting."),
          []) :=
  (duplicate_destination_aborts (constOracles 1) applyConfig ["root"] [] [] [] dupItems
    (by decide)).2

/-! ### C3: page-count mismatch is fatal and is not swallowed -/
/-- C3: a grammar-matching PDF whose filename-declared page count differs
from its actual page count makes apply_bates_to_pdf raise SystemExit (first
conjunct, dry-run or not), and when the stamping loop reaches any such file
the SystemExit is NOT caught by the per-file `except Exception:` handler:
the phase returns the fatal error immediately, with the filesystem untouched
from that point — the mismatching file and all later files are never
stamped, and no error-list entry is recorded for it. -/
theorem stamping_mismatch_fatal :
    (∀ (o : Oracles) (cfg : Config) (p : FileEntry) (cur : Option FileEntry),
        hasBatesMismatch p.stem (cur.bind o.pdfRead) = true →
        apply_bates_to_pdf o cfg p cur
          = .error (.exit ("Bates mismatch for " ++ p.fileName))) ∧
    (∀ (o : Oracles) (cfg : Config) (p : FileEntry) (rest : List FileEntry) (fs : FS)
        (total : Nat) (errs : List String) (m : String),
        apply_bates_to_pdf o cfg p (fsLookup fs p.dir p.fileName) = .error (.exit m) →
        stamp_loop o cfg (p :: rest) fs total errs = (.error (.exit m), fs)) := by
  constructor
  · intro o cfg p cur h
    unfold hasBatesMismatch at h
    unfold apply_bates_to_pdf
    match hm : batesNameMatch p.stem with
    | none => rw [hm] at h; cases h
    | some g =>
      rw [hm] at h
      match cur with
      | none => simp at h
      | some f =>
        match hr : o.pdfRead f with
        | none => simp [hr] at h
        | some n =>
          simp only [Option.some_bind, hr, decide_eq_true_eq] at h
          simp [hr, h]
  · intro o cfg p rest fs total errs m h
    simp only [stamp_loop]
    rw [h]

theorem stamping_mismatch_fatal_witness :
    stamp_loop (constOracles 7) dryConfig [c3File] [c3File] 0 []
      = (.error (.exit ("Bates mismatch for " ++ c3File.fileName)), [c3File]) := by
  have h1 := stamping_mismatch_fatal.1 (constOracles 7) dryConfig c3File
    (fsLookup [c3File] c3File.dir c3File.fileName) (by decide)
  exact stamping_mismatch_fatal.2 (constOracles 7) dryConfig c3File [] [c3File] 0 [] _ h1

/-! ### C7: non-matching names are informational skips; the combined name -/
/-- C7 (amended): a PDF whose stem does not match BATES_NAME_PATTERN is
skipped by apply_bates_to_pdf with only an informational note — no error is
recorded and the loop continues unchanged apart from the page-total
pre-read.  The combined-output name `"CF 0001- CF 0244"`, however, DOES
match the grammar (as a start-only label whose `" - original name"` tail
swallows `"- CF 0244"`), so it is not such a file and is not skipped. -/
theorem nonmatching_name_skipped :
    (∀ (o : Oracles) (cfg : Config) (p : FileEntry) (cur : Option FileEntry),
        batesNameMatch p.stem = none → apply_bates_to_pdf o cfg p cur = .ok none) ∧
    (∀ (o : Oracles) (cfg : Config) (p : FileEntry) (rest : List FileEntry) (fs : FS)
        (total : Nat) (errs : List String),
        batesNameMatch p.stem = none →
        ∃ total1, stamp_loop o cfg (p :: rest) fs total errs
          = stamp_loop o cfg rest fs total1 errs) ∧
    batesNameMatch "CF 0001- CF 0244" = some ⟨"CF", 1, none⟩ := by
  have hskip : ∀ (o : Oracles) (cfg : Config) (p : FileEntry) (cur : Option FileEntry),
      batesNameMatch p.stem = none → apply_bates_to_pdf o cfg p cur = .ok none := by
    intro o cfg p cur h
    unfold apply_bates_to_pdf
    rw [h]
  refine ⟨hskip, ?_, by decide⟩
  intro o cfg p rest fs total errs h
  refine ⟨(match fsLookup fs p.dir p.fileName with
    | some g => match o.pdfRead g with
      | some n => total + n
      | none => total
    | none => total), ?_⟩
  simp only [stamp_loop]
  rw [hskip o cfg p (fsLookup fs p.dir p.fileName) h]

/-- C7 counterexample: the combined-output filename matches the grammar, so
far from being skipped, stamping it (244 actual pages against the implied
single page) hits the fatal page-count check. -/
theorem combined_name_skip_counterexample :
    batesNameMatch c7Combined.stem ≠ none ∧
    apply_bates_to_pdf (constOracles 244) dryConfig c7Combined (some c7Combined)
      = .error (.exit ("Bates mismatch for " ++ c7Combined.fileName)) := by
  exact ⟨by decide, rfl⟩

theorem nonmatching_name_skipped_witness :
    apply_bates_to_pdf (constOracles 3) dryConfig c7Plain (some c7Plain) = .ok none :=
  nonmatching_name_skipped.1 (constOracles 3) dryConfig c7Plain (some c7Plain) (by decide)

/-! ### C5: dry-run mutates nothing -/
theorem convert_images_loop_dry (o : Oracles) (del : Bool) :
    ∀ (l : List FileEntry) (fs : FS) (convs : List (String × String)) (errs : List String),
      (convert_images_loop o true del l fs convs errs).1 = fs := by
  intro l
  induction l with
  | nil => intro fs convs errs; rfl
  | cons f rest ih =>
    intro fs convs errs
    simp only [convert_images_loop, if_true]
    split <;> exact ih _ _ _

theorem convert_htmls_loop_dry (o : Oracles) (del : Bool) :
    ∀ (l : List FileEntry) (fs : FS) (convs : List (String × String)) (errs : List String),
      (convert_htmls_loop o true del l fs convs errs).1 = fs := by
  intro l
  induction l with
  | nil => intro fs convs errs; rfl
  | cons f rest ih =>
    intro fs convs errs
    simp only [convert_htmls_loop, if_true]
    split <;> exact ih _ _ _

theorem convert_txts_loop_dry (o : Oracles) (del : Bool) :
    ∀ (l : List FileEntry) (fs : FS) (convs : List (String × String)) (errs : List String),
      (convert_txts_loop o true del l fs convs errs).1 = fs := by
  intro l
  induction l with
  | nil => intro fs convs errs; rfl
  | cons f rest ih =>
    intro fs convs errs
    simp only [convert_txts_loop, if_true]
    split <;> exact ih _ _ _

theorem convert_docx_loop_dry (o : Oracles) :
    ∀ (l : List FileEntry) (fs : FS) (convs : List (String × String)) (errs : List String),
      (convert_docx_loop o true l fs convs errs).1 = fs := by
  intro l
  induction l with
  | nil => intro fs convs errs; rfl
  | cons f rest ih =>
    intro fs convs errs
    simp only [convert_docx_loop, if_true]
    split <;> exact ih _ _ _

theorem convert_images_in_tree_dry (o : Oracles) (del : Bool) (rootDir : PathC) (fs : FS) :
    (convert_images_in_tree o true del rootDir fs).1 = fs :=
  convert_images_loop_dry o del _ fs [] []

theorem convert_htmls_in_tree_dry (o : Oracles) (del : Bool) (rootDir : PathC) (fs : FS) :
    (convert_htmls_in_tree o true del rootDir fs).1 = fs :=
  convert_htmls_loop_dry o del _ fs [] []

theorem convert_txts_in_tree_dry (o : Oracles) (del : Bool) (rootDir : PathC) (fs : FS) :
    (convert_txts_in_tree o true del rootDir fs).1 = fs :=
  convert_txts_loop_dry o del _ fs [] []

theorem convert_docx_in_tree_dry (o : Oracles) (rootDir : PathC) (fs : FS) :
    (convert_docx_in_tree o true rootDir fs).1 = fs :=
  convert_docx_loop_dry o _ fs [] []

theorem plan_items_loop_dry (o : Oracles) :
    ∀ (l : List FileEntry) (fs : FS) (items : List Item),
      (plan_items_loop o true l fs items).1 = fs := by
  intro l
  induction l with
  | nil => intro fs items; rfl
  | cons f rest ih =>
    intro fs items
    simp only [plan_items_loop, if_true]
    split
    · exact ih _ _
    · split <;> first | (split <;> exact ih _ _) | exact ih _ _

theorem plan_items_dry (o : Oracles) (rootDir : PathC) (fs : FS) :
    (plan_items o true rootDir fs).1 = fs :=
  plan_items_loop_dry o _ fs []

theorem pipeline_after_items_dry (o : Oracles) (cfg : Config) (rootDir : PathC)
    (fs : FS) (convRenamed : List (String × String)) (convErrors : List String)
    (items : List Item) (h : cfg.dryRun = true) :
    (pipeline_after_items o cfg rootDir fs convRenamed convErrors items).2 = fs := by
  unfold pipeline_after_items
  cases hb : build_renames cfg items with
  | error e => rfl
  | ok ops => simp [h]

theorem conversion_only_pipeline_dry (o : Oracles) (cfg : Config) (rootDir : PathC)
    (fs : FS) (h : cfg.dryRun = true) :
    (conversion_only_pipeline o cfg rootDir fs).2 = fs := by
  unfold conversion_only_pipeline
  rw [h]
  simp only [convert_images_in_tree_dry, convert_htmls_in_tree_dry,
    convert_txts_in_tree_dry, convert_docx_in_tree_dry, if_true]

/-- C5: with dry_run set, run_pipeline performs zero filesystem mutation —
the resulting tree is the input tree — and, consequently, a second dry run
over the (unchanged) tree returns the identical result, preview included. -/
theorem dry_run_no_mutation (o : Oracles) (cfg : Config) (rootDir : PathC) (fs : FS)
    (hdry : cfg.dryRun = true) :
    (run_pipeline o cfg rootDir fs).2 = fs ∧
    run_pipeline o cfg rootDir ((run_pipeline o cfg rootDir fs).2)
      = run_pipeline o cfg rootDir fs := by
  have h2 : (run_pipeline o cfg rootDir fs).2 = fs := by
    unfold run_pipeline
    rw [hdry]
    simp only [not_true, and_false, if_false]
    by_cases hco : cfg.conversionOnly = true
    · rw [if_pos hco]
      exact conversion_only_pipeline_dry o cfg rootDir fs hdry
    · rw [if_neg hco]
      simp only [hdry, convert_images_in_tree_dry, convert_htmls_in_tree_dry,
        convert_txts_in_tree_dry]
      split
      · rfl
      · split
        · exact plan_items_dry o rootDir fs
        · rw [pipeline_after_items_dry o cfg rootDir _ _ _ _ hdry]
          exact plan_items_dry o rootDir fs
  exact ⟨h2, by rw [h2]⟩

theorem dry_run_no_mutation_witness :
    (run_pipeline (constOracles 1) dryConfig ["root"]
        [⟨["root"], "a", ".pdf", 1⟩]).2 = [⟨["root"], "a", ".pdf", 1⟩] :=
  (dry_run_no_mutation (constOracles 1) dryConfig ["root"]
    [⟨["root"], "a", ".pdf", 1⟩] rfl).1

theorem rmLookup_rmUpdate_self (m : RangeMap) (p : PathC) (v : Nat × Nat) :
    rmLookup (rmUpdate m p v) p = some v := by
  induction m with
  | nil =>
    unfold rmUpdate rmLookup
    rw [List.find?_cons_of_pos _ (by simp)]
    rfl
  | cons entry tl ih =>
    by_cases h : entry.1 = p
    · unfold rmUpdate
      rw [if_pos h]
      unfold rmLookup
      rw [List.find?_cons_of_pos _ (by simp)]
      rfl
    · unfold rmUpdate
      rw [if_neg h]
      unfold rmLookup at ih ⊢
      rw [List.find?_cons_of_neg _ (by simpa using h)]
      exact ih

theorem rmLookup_rmUpdate_other (m : RangeMap) (p : PathC) (v : Nat × Nat)
    (d : PathC) (h : d ≠ p) :
    rmLookup (rmUpdate m p v) d = rmLookup m d := by
  have hpd : ¬ p = d := fun h2 => h h2.symm
  induction m with
  | nil =>
    unfold rmUpdate rmLookup
    rw [List.find?_cons_of_neg _ (by simpa using hpd)]
  | cons entry tl ih =>
    by_cases he : entry.1 = p
    · unfold rmUpdate
      rw [if_pos he]
      unfold rmLookup
      rw [List.find?_cons_of_neg _ (by simpa using hpd),
        List.find?_cons_of_neg _ (by rw [he]; simpa using hpd)]
    · unfold rmUpdate
      rw [if_neg he]
      unfold rmLookup at ih ⊢
      by_cases hd : entry.1 = d
      · rw [List.find?_cons_of_pos _ (by simpa using hd),
          List.find?_cons_of_pos _ (by simpa using hd)]
      · rw [List.find?_cons_of_neg _ (by simpa using hd),
          List.find?_cons_of_neg _ (by simpa using hd)]
        exact ih

theorem chainOf_length (rootDir : PathC) :
    ∀ (n : Nat) (dir : PathC), dir.length ≤ n →
      ∀ d ∈ chainOf rootDir dir, d.length ≤ dir.length := by
  intro n
  induction n with
  | zero =>
    intro dir hlen d hd
    have hnil : dir = [] := List.length_eq_zero.mp (Nat.le_zero.mp hlen)
    subst hnil
    rw [chainOf, if_pos (Or.inr rfl)] at hd
    rw [List.mem_singleton.mp hd]
  | succ n ih =>
    intro dir hlen d hd
    rw [chainOf] at hd
    split at hd
    · rw [List.mem_singleton.mp hd]
    · rcases List.mem_cons.mp hd with rfl | hd'
      · exact Nat.le_refl _
      · have hstep := ih dir.dropLast
          (by simp only [List.length_dropLast]; omega) d hd'
        simp only [List.length_dropLast] at hstep
        omega

theorem climbFoldersAux_lookup (rootDir : PathC) (s e : Nat) :
    ∀ (fuel : Nat) (parent : PathC) (m : RangeMap) (d : PathC),
      parent.length < fuel →
      (∃ rel, parent = rootDir ++ rel) →
      BACKUP_FOLDER_NAME ∉ parent →
      rmLookup (climbFoldersAux rootDir s e fuel parent m) d =
        if d ∈ chainOf rootDir parent then some (rangeMerge (rmLookup m d) (s, e))
        else rmLookup m d := by
  intro fuel
  induction fuel with
  | zero => intro parent m d hf; omega
  | succ fuel ih =>
    intro parent m d hf hrel hb
    simp only [climbFoldersAux]
    rw [if_neg hb]
    by_cases hstop : parent = rootDir ∨ parent = []
    · rw [if_pos hstop]
      have hchain : chainOf rootDir parent = [parent] := by
        rw [chainOf, if_pos hstop]
      rw [hchain]
      by_cases hd : d = parent
      · subst hd
        rw [if_pos (List.mem_singleton.mpr rfl)]
        cases hm : rmLookup m d with
        | none => simp only [hm]; rw [rmLookup_rmUpdate_self]; rfl
        | some ab =>
          obtain ⟨a, b⟩ := ab
          simp only [hm]
          rw [rmLookup_rmUpdate_self]
          rfl
      · rw [if_neg (by simpa using hd)]
        cases hm : rmLookup m parent with
        | none => simp only [hm]; exact rmLookup_rmUpdate_other m parent _ d hd
        | some ab =>
          obtain ⟨a, b⟩ := ab
          simp only [hm]
          exact rmLookup_rmUpdate_other m parent _ d hd
    · rw [if_neg hstop]
      obtain ⟨rel, hrel'⟩ := hrel
      have hpne : parent ≠ [] := fun h2 => hstop (Or.inr h2)
      have hrelne : rel ≠ [] := by
        rintro rfl
        rw [List.append_nil] at hrel'
        exact hstop (Or.inl hrel')
      have hdropeq : parent.dropLast = rootDir ++ rel.dropLast := by
        rw [hrel', List.dropLast_append_of_ne_nil _ hrelne]
      have hplen : parent.dropLast.length < fuel := by
        have h1 : 1 ≤ parent.length := by
          cases parent with
          | nil => exact absurd rfl hpne
          | cons a b => simp
        simp only [List.length_dropLast]
        omega
      have hb' : BACKUP_FOLDER_NAME ∉ parent.dropLast :=
        fun hmem => hb (List.dropLast_subset parent hmem)
      have hchain : chainOf rootDir parent = parent :: chainOf rootDir parent.dropLast := by
        rw [chainOf, if_neg hstop]
      have hm1 : ∀ m1 : RangeMap,
          (rmLookup m1 d = if d = parent then some (rangeMerge (rmLookup m parent) (s, e))
            else rmLookup m d) →
          rmLookup (climbFoldersAux rootDir s e fuel parent.dropLast m1) d =
            (if d ∈ chainOf rootDir parent then some (rangeMerge (rmLookup m d) (s, e))
              else rmLookup m d) := by
        intro m1 hlook
        rw [ih parent.dropLast m1 d hplen ⟨rel.dropLast, hdropeq⟩ hb', hchain]
        by_cases hd : d = parent
        · subst hd
          have hnotin : d ∉ chainOf rootDir d.dropLast := by
            intro hmem
            have := chainOf_length rootDir d.dropLast.length d.dropLast
              (Nat.le_refl _) d hmem
            have h1 : 1 ≤ d.length := by
              cases hdc : d with
              | nil => exact absurd hdc hpne
              | cons a b => simp
            simp only [List.length_dropLast] at this
            omega
          rw [if_neg hnotin, if_pos (List.mem_cons_self _ _), hlook, if_pos rfl]
        · rw [hlook, if_neg hd]
          by_cases hdc : d ∈ chainOf rootDir parent.dropLast
          · rw [if_pos hdc, if_pos (List.mem_cons_of_mem _ hdc)]
          · rw [if_neg hdc, if_neg (by rw [List.mem_cons]; push_neg; exact ⟨hd, hdc⟩)]
      cases hm : rmLookup m parent with
      | none =>
        simp only [hm]
        refine hm1 (rmUpdate m parent (s, e)) ?_
        by_cases hd : d = parent
        · subst hd; rw [if_pos rfl, rmLookup_rmUpdate_self, hm]; rfl
        · rw [if_neg hd]; exact rmLookup_rmUpdate_other m parent _ d hd
      | some ab =>
        obtain ⟨a, b⟩ := ab
        simp only [hm]
        refine hm1 (rmUpdate m parent (min a s, max b e)) ?_
        by_cases hd : d = parent
        · subst hd; rw [if_pos rfl, rmLookup_rmUpdate_self, hm]; rfl
        · rw [if_neg hd]; exact rmLookup_rmUpdate_other m parent _ d hd

theorem climbFolders_lookup (rootDir : PathC) (s e : Nat) (parent : PathC)
    (m : RangeMap) (d : PathC)
    (hrel : ∃ rel, parent = rootDir ++ rel)
    (hb : BACKUP_FOLDER_NAME ∉ parent) :
    rmLookup (climbFolders rootDir s e parent m) d =
      if d ∈ chainOf rootDir parent then some (rangeMerge (rmLookup m d) (s, e))
      else rmLookup m d :=
  climbFoldersAux_lookup rootDir s e (parent.length + 1) parent m d
    (Nat.lt_succ_self _) hrel hb

theorem contributions_cons_skip (rootDir d : PathC) (f : FileEntry)
    (rest : List FileEntry) (hbk : BACKUP_FOLDER_NAME ∈ f.parts) :
    contributions rootDir d (f :: rest) = contributions rootDir d rest := by
  simp [contributions, List.filterMap_cons, hbk]

theorem contributions_cons_nomatch (rootDir d : PathC) (f : FileEntry)
    (rest : List FileEntry) (hbk : BACKUP_FOLDER_NAME ∉ f.parts)
    (hmat : batesNameMatch f.stem = none) :
    contributions rootDir d (f :: rest) = contributions rootDir d rest := by
  simp [contributions, List.filterMap_cons, hbk, hmat]

theorem contributions_cons_match_in (rootDir d : PathC) (f : FileEntry)
    (rest : List FileEntry) (g : BatesGroups) (hbk : BACKUP_FOLDER_NAME ∉ f.parts)
    (hmat : batesNameMatch f.stem = some g) (hdc : d ∈ chainOf rootDir f.dir) :
    contributions rootDir d (f :: rest)
      = (g.start, g.endNum.getD g.start) :: contributions rootDir d rest := by
  simp [contributions, List.filterMap_cons, hbk, hmat, hdc]

theorem contributions_cons_match_out (rootDir d : PathC) (f : FileEntry)
    (rest : List FileEntry) (g : BatesGroups) (hbk : BACKUP_FOLDER_NAME ∉ f.parts)
    (hmat : batesNameMatch f.stem = some g) (hdc : d ∉ chainOf rootDir f.dir) :
    contributions rootDir d (f :: rest) = contributions rootDir d rest := by
  simp [contributions, List.filterMap_cons, hbk, hmat, hdc]

theorem collect_folder_loop_lookup (rootDir : PathC) :
    ∀ (files : List FileEntry) (m : RangeMap) (d : PathC),
      (∀ f ∈ files, ∃ rel, f.dir = rootDir ++ rel) →
      rmLookup (collect_folder_loop rootDir files m) d =
        (contributions rootDir d files).foldl
          (fun acc se => some (rangeMerge acc se)) (rmLookup m d) := by
  intro files
  induction files with
  | nil => intro m d _; rfl
  | cons f rest ih =>
    intro m d hfiles
    have hrest : ∀ g ∈ rest, ∃ rel, g.dir = rootDir ++ rel :=
      fun g hg => hfiles g (List.mem_cons_of_mem f hg)
    by_cases hbk : BACKUP_FOLDER_NAME ∈ f.parts
    · rw [show collect_folder_loop rootDir (f :: rest) m
          = collect_folder_loop rootDir rest m from by
            simp [collect_folder_loop, hbk],
        contributions_cons_skip rootDir d f rest hbk]
      exact ih m d hrest
    · cases hmat : batesNameMatch f.stem with
      | none =>
        rw [show collect_folder_loop rootDir (f :: rest) m
            = collect_folder_loop rootDir rest m from by
              simp [collect_folder_loop, hbk, hmat],
          contributions_cons_nomatch rootDir d f rest hbk hmat]
        exact ih m d hrest
      | some g =>
        have hbdir : BACKUP_FOLDER_NAME ∉ f.dir := by
          intro hmem
          exact hbk (by unfold FileEntry.parts; exact List.mem_append_left _ hmem)
        have hclimb := climbFolders_lookup rootDir g.start (g.endNum.getD g.start)
          f.dir m d (hfiles f (List.mem_cons_self f rest)) hbdir
        rw [show collect_folder_loop rootDir (f :: rest) m
            = collect_folder_loop rootDir rest
                (climbFolders rootDir g.start (g.endNum.getD g.start) f.dir m) from by
              simp [collect_folder_loop, hbk, hmat],
          ih _ d hrest, hclimb]
        by_cases hdc : d ∈ chainOf rootDir f.dir
        · rw [contributions_cons_match_in rootDir d f rest g hbk hmat hdc,
            List.foldl_cons, if_pos hdc]
        · rw [contributions_cons_match_out rootDir d f rest g hbk hmat hdc,
            if_neg hdc]

theorem foldMerge_minmax :
    ∀ (cs : List (Nat × Nat)) (a b : Nat),
      cs.foldl (fun acc se => some (rangeMerge acc se)) (some (a, b)) =
        some (cs.foldl (fun x se => min x se.1) a,
              cs.foldl (fun x se => max x se.2) b) := by
  intro cs
  induction cs with
  | nil => intro a b; rfl
  | cons c tl ih =>
    intro a b
    simp only [List.foldl_cons]
    exact ih (min a c.1) (max b c.2)

/-- C9: folder-range aggregation maps each directory `d` to the pair
(min of starts, max of end-or-starts) over exactly the grammar-matching
files outside the backup subtree whose upward walk from their parent to the
root (inclusive) passes through `d`; directories with no such descendants
get no entry. -/
theorem folder_range_rollup (rootDir : PathC) (fs : FS) (d : PathC) :
    rmLookup (collect_folder_bates_ranges rootDir fs) d =
      match contributions rootDir d (iter_finder_order_files rootDir fs) with
      | [] => none
      | c :: rest =>
        some (rest.foldl (fun x se => min x se.1) c.1,
              rest.foldl (fun x se => max x se.2) c.2) := by
  have hfiles : ∀ f ∈ iter_finder_order_files rootDir fs, ∃ rel, f.dir = rootDir ++ rel := by
    intro f hf
    have hcond := List.of_mem_filter hf
    simp only [Bool.and_eq_true, decide_eq_true_eq] at hcond
    refine ⟨f.dir.drop rootDir.length, ?_⟩
    conv_lhs => rw [← List.take_append_drop rootDir.length f.dir]
    rw [hcond.1.1]
  unfold collect_folder_bates_ranges
  rw [collect_folder_loop_lookup rootDir _ [] d hfiles]
  cases hc : contributions rootDir d (iter_finder_order_files rootDir fs) with
  | nil => rfl
  | cons c rest =>
    simp only [List.foldl_cons]
    have : rangeMerge (rmLookup ([] : RangeMap) d) c = c := rfl
    rw [this]
    exact foldMerge_minmax rest c.1 c.2

/-- The claim's concrete instance: a directory holding files labelled
`CF 0001` and `CF 0010-0012` aggregates to `(1, 12)`, as does the root
above it. -/
theorem folder_range_rollup_example :
    rmLookup (collect_folder_bates_ranges ["root"]
        [⟨["root", "sub"], "CF 0001", ".pdf", 0⟩,
         ⟨["root", "sub"], "CF 0010-0012", ".pdf", 0⟩]) ["root", "sub"]
      = some (1, 12) ∧
    rmLookup (collect_folder_bates_ranges ["root"]
        [⟨["root", "sub"], "CF 0001", ".pdf", 0⟩,
         ⟨["root", "sub"], "CF 0010-0012", ".pdf", 0⟩]) ["root"]
      = some (1, 12) := by
  exact ⟨by decide, by decide⟩

/-- Lemma: `allocRanges` is exactly the counter logic of build_renames: zipping the
items with the allocated `(start, end)` pairs reconstructs the operation
list verbatim. -/
theorem build_renames_ops_eq_alloc (cfg : Config) :
    ∀ (items : List Item) (counter : Nat),
      build_renames_ops cfg counter items =
        (items.zip (allocRanges counter (items.map Item.pages)).1).map
          (fun q =>
            (q.1.dir ++ [q.1.stem ++ q.1.sfx],
             q.1.dir ++ [make_bates_filename cfg.keepOriginalName
               (if q.1.pages = 1 then formatBatesBase cfg.pfx cfg.digits q.2.1 none
                else formatBatesBase cfg.pfx cfg.digits q.2.1 (some q.2.2))
               q.1.stem q.1.sfx])) := by
  intro items
  induction items with
  | nil => intro counter; rfl
  | cons it rest ih =>
    intro counter
    simp only [build_renames_ops, allocRanges, List.map_cons, List.zip_cons_cons]
    rw [ih (counter + it.pages - 1 + 1)]

end OSCPack
